import Mathlib

/-!
# Verification of the zettelgeist record core (`zettelgeist/zettel.py`)

This file gives a shallow embedding of the schema-validating record model,
the mutation engine, the CLI batch pipeline, the YAML serializer front end
and the flattener of `zettelgeist/zettel.py`, and proves (or refutes)
the specification claims about them.

Modelling conventions:
* Python values decoded from YAML are modelled by the closed variant `Value`
  (`None`, `str`, `int`, `bool`, `list`/`tuple`, `dict`).  A Python `dict`
  is an insertion-ordered association list `List (String × Value)`;
  `insertVal` updates the value in place when the key is present (keeping its
  position, as a Python dict does) and appends it at the end otherwise,
  `eraseKey` removes the key.
* Python exceptions are modelled by `PyError`: the repository's own
  `ParseError` carries its message, and the builtin exception classes that
  the mutation code can raise (`TypeError`, `IndexError`, `KeyError`,
  `AttributeError`) are separate constructors.
* A mutation method of class `Zettel` becomes a function
  `Record → … → Except PyError (Record × List Record)`; the second component
  records, in order, each record state that the method passed to
  `parse_zettel` (the re-validation calls).  On an exception the Python
  object may retain a partial mutation, but callers must discard the record
  (spec §7), so an erroring call is modelled by the error alone.
-/

set_option maxRecDepth 4000

/-- A decoded YAML / Python value: `None`, `str`, `int`, `bool`,
`list`/`tuple`, or `dict` (insertion-ordered). -/
inductive Value where
  | vnull : Value
  | vstr (s : String) : Value
  | vint (n : Int) : Value
  | vbool (b : Bool) : Value
  | vlist (items : List Value) : Value
  | vdict (entries : List (String × Value)) : Value
  deriving Repr

mutual

/-- Decidable equality for `Value` (the automatic deriving handler does not
support the nested `List` occurrences). -/
def Value.decEq : (a b : Value) → Decidable (a = b)
  | .vnull, .vnull => .isTrue rfl
  | .vnull, .vstr _ => .isFalse (fun h => Value.noConfusion h)
  | .vnull, .vint _ => .isFalse (fun h => Value.noConfusion h)
  | .vnull, .vbool _ => .isFalse (fun h => Value.noConfusion h)
  | .vnull, .vlist _ => .isFalse (fun h => Value.noConfusion h)
  | .vnull, .vdict _ => .isFalse (fun h => Value.noConfusion h)
  | .vstr _, .vnull => .isFalse (fun h => Value.noConfusion h)
  | .vstr a, .vstr b =>
      if h : a = b then .isTrue (by rw [h]) else .isFalse (fun hh => h (Value.vstr.inj hh))
  | .vstr _, .vint _ => .isFalse (fun h => Value.noConfusion h)
  | .vstr _, .vbool _ => .isFalse (fun h => Value.noConfusion h)
  | .vstr _, .vlist _ => .isFalse (fun h => Value.noConfusion h)
  | .vstr _, .vdict _ => .isFalse (fun h => Value.noConfusion h)
  | .vint _, .vnull => .isFalse (fun h => Value.noConfusion h)
  | .vint _, .vstr _ => .isFalse (fun h => Value.noConfusion h)
  | .vint a, .vint b =>
      if h : a = b then .isTrue (by rw [h]) else .isFalse (fun hh => h (Value.vint.inj hh))
  | .vint _, .vbool _ => .isFalse (fun h => Value.noConfusion h)
  | .vint _, .vlist _ => .isFalse (fun h => Value.noConfusion h)
  | .vint _, .vdict _ => .isFalse (fun h => Value.noConfusion h)
  | .vbool _, .vnull => .isFalse (fun h => Value.noConfusion h)
  | .vbool _, .vstr _ => .isFalse (fun h => Value.noConfusion h)
  | .vbool _, .vint _ => .isFalse (fun h => Value.noConfusion h)
  | .vbool a, .vbool b =>
      if h : a = b then .isTrue (by rw [h]) else .isFalse (fun hh => h (Value.vbool.inj hh))
  | .vbool _, .vlist _ => .isFalse (fun h => Value.noConfusion h)
  | .vbool _, .vdict _ => .isFalse (fun h => Value.noConfusion h)
  | .vlist _, .vnull => .isFalse (fun h => Value.noConfusion h)
  | .vlist _, .vstr _ => .isFalse (fun h => Value.noConfusion h)
  | .vlist _, .vint _ => .isFalse (fun h => Value.noConfusion h)
  | .vlist _, .vbool _ => .isFalse (fun h => Value.noConfusion h)
  | .vlist xs, .vlist ys =>
      match Value.decEqList xs ys with
      | .isTrue h => .isTrue (by rw [h])
      | .isFalse h => .isFalse (fun hh => h (Value.vlist.inj hh))
  | .vlist _, .vdict _ => .isFalse (fun h => Value.noConfusion h)
  | .vdict _, .vnull => .isFalse (fun h => Value.noConfusion h)
  | .vdict _, .vstr _ => .isFalse (fun h => Value.noConfusion h)
  | .vdict _, .vint _ => .isFalse (fun h => Value.noConfusion h)
  | .vdict _, .vbool _ => .isFalse (fun h => Value.noConfusion h)
  | .vdict _, .vlist _ => .isFalse (fun h => Value.noConfusion h)
  | .vdict xs, .vdict ys =>
      match Value.decEqDict xs ys with
      | .isTrue h => .isTrue (by rw [h])
      | .isFalse h => .isFalse (fun hh => h (Value.vdict.inj hh))

/-- Decidable equality for lists of values. -/
def Value.decEqList : (xs ys : List Value) → Decidable (xs = ys)
  | [], [] => .isTrue rfl
  | [], _ :: _ => .isFalse (fun h => List.noConfusion h)
  | _ :: _, [] => .isFalse (fun h => List.noConfusion h)
  | x :: xs, y :: ys =>
      match Value.decEq x y with
      | .isFalse h => .isFalse (fun hh => h (List.cons.inj hh).1)
      | .isTrue h1 =>
          match Value.decEqList xs ys with
          | .isTrue h2 => .isTrue (by rw [h1, h2])
          | .isFalse h2 => .isFalse (fun hh => h2 (List.cons.inj hh).2)

/-- Decidable equality for dict entry lists. -/
def Value.decEqDict : (xs ys : List (String × Value)) → Decidable (xs = ys)
  | [], [] => .isTrue rfl
  | [], _ :: _ => .isFalse (fun h => List.noConfusion h)
  | _ :: _, [] => .isFalse (fun h => List.noConfusion h)
  | (k1, v1) :: xs, (k2, v2) :: ys =>
      if hk : k1 = k2 then
        match Value.decEq v1 v2 with
        | .isFalse h =>
            .isFalse (fun hh => h (congrArg Prod.snd (List.cons.inj hh).1))
        | .isTrue h1 =>
            match Value.decEqDict xs ys with
            | .isTrue h2 => .isTrue (by rw [hk, h1, h2])
            | .isFalse h2 => .isFalse (fun hh => h2 (List.cons.inj hh).2)
      else
        .isFalse (fun hh => hk (congrArg Prod.fst (List.cons.inj hh).1))

end

instance : DecidableEq Value := Value.decEq

instance {ε α : Type} [DecidableEq ε] [DecidableEq α] : DecidableEq (Except ε α) :=
  fun a b =>
    match a, b with
    | .ok x, .ok y =>
        if h : x = y then .isTrue (by rw [h]) else .isFalse (fun hh => h (Except.ok.inj hh))
    | .error x, .error y =>
        if h : x = y then .isTrue (by rw [h]) else .isFalse (fun hh => h (Except.error.inj hh))
    | .ok _, .error _ => .isFalse (fun h => Except.noConfusion h)
    | .error _, .ok _ => .isFalse (fun h => Except.noConfusion h)

/-- A Python exception as raised by the zettel core: the repository's
`ParseError` (with its message), or one of the builtin exception classes
that the mutation methods can raise. -/
inductive PyError where
  | parseError (message : String) : PyError
  | typeError : PyError
  | indexError : PyError
  | keyError : PyError
  | attributeError : PyError
  deriving Repr, DecidableEq

/-- A decoded top-level mapping (`self.zettel` in the source): a Python dict
from field name to value, in insertion order. -/
abbrev Record := List (String × Value)

/-- Python `d.get(key, None)` / `key in d`: first entry with the given key.
`none` models an absent key; `some .vnull` a key present with value `None`. -/
def lookup : Record → String → Option Value
  | [], _ => none
  | (k, v) :: rest, key => if k = key then some v else lookup rest key

/-- Python `key in d`. -/
def containsKey (d : Record) (key : String) : Bool :=
  (lookup d key).isSome

/-- Python `d[key] = v`: update in place (keeping the entry's position) when
the key is present, append at the end otherwise. -/
def insertVal (d : Record) (key : String) (v : Value) : Record :=
  if containsKey d key then
    d.map (fun p => if p.1 = key then (key, v) else p)
  else
    d ++ [(key, v)]

/-- Python `del d[key]` (total: used where the source wraps the delete in
`try … except: pass`, and elsewhere only on present keys). -/
def eraseKey (d : Record) (key : String) : Record :=
  d.filter (fun p => ¬ p.1 = key)

/-- `ZettelStringFields` from the source. -/
def ZettelStringFields : List String :=
  ["title", "bibkey", "bibtex", "ris", "inline", "url", "summary", "comment", "note"]

/-- `ZettelListFields` from the source. -/
def ZettelListFields : List String := ["tags", "mentions"]

/-- `ZettelStructuredFields` from the source. -/
def ZettelStructuredFields : List String := ["cite", "dates"]

/-- `ZettelExtraFields` from the source. -/
def ZettelExtraFields : List String := ["filename", "document"]

/-- `ZettelFieldsOrdered` from the source: the canonical field order. -/
def ZettelFieldsOrdered : List String :=
  ZettelStringFields ++ ZettelListFields ++ ZettelStructuredFields ++ ZettelExtraFields

/-- `CitationFields` from the source. -/
def CitationFields : List String := ["bibkey", "page"]

/-- `DatesFields` from the source. -/
def DatesFields : List String := ["year", "era"]

/-- Python `type(value).__name__` for our value variants. -/
def typename : Value → String
  | .vnull => "NoneType"
  | .vstr _ => "str"
  | .vint _ => "int"
  | .vbool _ => "bool"
  | .vlist _ => "list"
  | .vdict _ => "dict"

mutual

/-- Python `str(value)` for the values that reach `%s` message formatting and
`flatten`.  Scalars are exact; for containers the rendering of nested strings
omits Python's quoting, which no theorem below depends on. -/
def pyStr : Value → String
  | .vnull => "None"
  | .vstr s => s
  | .vint n => toString n
  | .vbool b => if b then "True" else "False"
  | .vlist items => "[" ++ pyStrList items ++ "]"
  | .vdict entries => "\x7b" ++ pyStrDict entries ++ "\x7d"

/-- Comma-joined renderings of the elements of a list value. -/
def pyStrList : List Value → String
  | [] => ""
  | [x] => pyStr x
  | x :: y :: rest => pyStr x ++ ", " ++ pyStrList (y :: rest)

/-- Comma-joined `key: value` renderings of the entries of a dict value. -/
def pyStrDict : List (String × Value) → String
  | [] => ""
  | [(k, v)] => k ++ ": " ++ pyStr v
  | (k, v) :: e :: rest => k ++ ": " ++ pyStr v ++ ", " ++ pyStrDict (e :: rest)

end

/-- `check_field_names(doc, name_set, label)`: every key of the mapping must
belong to the allowed name set. -/
def check_field_names : Record → List String → String → Except PyError Unit
  | [], _, _ => .ok ()
  | (k, _) :: rest, nameSet, label =>
      if k ∈ nameSet then check_field_names rest nameSet label
      else .error (.parseError ("Invalid field " ++ k ++ " found in " ++ label))

/-- The body of `parse_string_field` applied to the looked-up value
(`doc.get(field, None)`, with present-but-null distinguished as
`some .vnull`). -/
def parse_string_opt (field : String) (value : Option Value) (required : Bool) :
    Except PyError Unit :=
  match value with
  | none =>
      if required then
        .error (.parseError ("Field " ++ field ++
          " requires a string but found None of type NoneType"))
      else .ok ()
  | some .vnull =>
      if required then
        .error (.parseError ("Field " ++ field ++
          " requires a string but found None of type NoneType"))
      else .error (.parseError ("Field " ++ field ++ " may not be (YAML) null"))
  | some (.vstr _) => .ok ()
  | some v =>
      .error (.parseError ("Field " ++ field ++
        " must be a string or not present at all - found value " ++ pyStr v ++
        " of type " ++ typename v))

/-- `parse_string_field(doc, field, required)` from the source. -/
def parse_string_field (doc : Record) (field : String) (required : Bool := false) :
    Except PyError Unit :=
  parse_string_opt field (lookup doc field) required

/-- The item loop of `parse_list_of_string_field`: the source builds a scratch
dict `doc2` mapping the key `"field(pos)"` to each list item and re-runs
`parse_string_field(doc2, key, True)` over its keys; since those keys are
pairwise distinct, this checks each item in order with `required=True` under
the key name `field ++ "(" ++ pos ++ ")"`. -/
def parse_list_items (field : String) (pos : Nat) : List Value → Except PyError Unit
  | [] => .ok ()
  | item :: rest =>
      match parse_string_opt (field ++ "(" ++ toString pos ++ ")") (some item) true with
      | .ok _ => parse_list_items field (pos + 1) rest
      | .error e => .error e

/-- The body of `parse_list_of_string_field` applied to the looked-up value. -/
def parse_list_opt (field : String) (value : Option Value) (required : Bool) :
    Except PyError Unit :=
  match value with
  | none =>
      if required then
        .error (.parseError ("Field " ++ field ++ " requires a list of strings"))
      else .ok ()
  | some .vnull =>
      if required then
        .error (.parseError ("Field " ++ field ++ " requires a list of strings"))
      else .error (.parseError ("Field " ++ field ++ " may not be (YAML) null"))
  | some (.vlist items) => parse_list_items field 0 items
  | some v =>
      .error (.parseError ("Field " ++ field ++
        " must be a list or not present at all - found value " ++ pyStr v ++
        " of type " ++ typename v))

/-- `parse_list_of_string_field(doc, field, required)` from the source
(`list` and `tuple` are both modelled by `.vlist`). -/
def parse_list_of_string_field (doc : Record) (field : String)
    (required : Bool := false) : Except PyError Unit :=
  parse_list_opt field (lookup doc field) required

/-- The body of `parse_citation` applied to the looked-up value.  Note that a
present-but-null citation takes the `value == None` early return and is
accepted.  The misspelling "dictoinary" is the source's. -/
def parse_cite_opt (field : String) (value : Option Value) : Except PyError Unit :=
  match value with
  | none => .ok ()
  | some .vnull => .ok ()
  | some (.vdict entries) =>
      check_field_names entries CitationFields "Citation" >>= fun _ =>
      parse_string_field entries "bibkey" true >>= fun _ =>
      parse_string_field entries "page"
  | some _ =>
      .error (.parseError (field ++ " must be a nested (citation) dictoinary"))

/-- `parse_citation(doc, field)` from the source. -/
def parse_citation (doc : Record) (field : String) : Except PyError Unit :=
  parse_cite_opt field (lookup doc field)

/-- The body of `parse_dates` applied to the looked-up value; as with
citations, a present-but-null dates value is accepted. -/
def parse_dates_opt (field : String) (value : Option Value) : Except PyError Unit :=
  match value with
  | none => .ok ()
  | some .vnull => .ok ()
  | some (.vdict entries) =>
      check_field_names entries DatesFields "Dates" >>= fun _ =>
      parse_string_field entries "year" true >>= fun _ =>
      parse_string_field entries "era"
  | some _ =>
      .error (.parseError (field ++ " must be a nested (dates) dictionary"))

/-- `parse_dates(doc, field)` from the source. -/
def parse_dates (doc : Record) (field : String) : Except PyError Unit :=
  parse_dates_opt field (lookup doc field)

/-- `parse_zettel(doc)` from the source: the full validator.  The top-level
`isinstance(doc, dict)` check is carried by the `Record` type itself; the
remaining checks run in source order.  `filename` is never parsed. -/
def parse_zettel (doc : Record) : Except PyError Unit :=
  check_field_names doc ZettelFieldsOrdered "Zettel" >>= fun _ =>
  parse_string_field doc "title" >>= fun _ =>
  parse_string_field doc "bibkey" >>= fun _ =>
  parse_string_field doc "bibtex" >>= fun _ =>
  parse_string_field doc "ris" >>= fun _ =>
  parse_string_field doc "inline" >>= fun _ =>
  parse_string_field doc "url" >>= fun _ =>
  parse_string_field doc "summary" >>= fun _ =>
  parse_string_field doc "comment" >>= fun _ =>
  parse_string_field doc "note" >>= fun _ =>
  parse_string_field doc "document" >>= fun _ =>
  parse_list_of_string_field doc "tags" >>= fun _ =>
  parse_list_of_string_field doc "mentions" >>= fun _ =>
  parse_citation doc "cite" >>= fun _ =>
  parse_dates doc "dates"

/-! ## The mutation engine (class `Zettel`)

Each method returns `Except PyError (Record × List Record)`: on success, the
resulting record state together with the list of record states that the
method passed to `parse_zettel` (its re-validation calls), in order. -/

/-- The result of one mutation-engine call: the post-operation record and the
validation log (each state handed to `parse_zettel` during the call). -/
abbrev MResult := Except PyError (Record × List Record)

namespace Zettel

/-- Mutate to `z`, then run the trailing `parse_zettel(self.zettel)` call that
most methods end with. -/
def validated (z : Record) (log : List Record) : MResult :=
  match parse_zettel z with
  | .ok _ => .ok (z, log ++ [z])
  | .error e => .error e

/-- `Zettel.set_field(name, value)`: assign, then re-validate. -/
def set_field (z : Record) (name : String) (value : Value) : MResult :=
  validated (insertVal z name value) []

/-- `Zettel.delete_field(name)`: delete (swallowing the `KeyError` when the
key is absent), then re-validate. -/
def delete_field (z : Record) (name : String) : MResult :=
  validated (eraseKey z name) []

/-- `Zettel.reset_list_field(name)`: set to the empty list, then
re-validate. -/
def reset_list_field (z : Record) (name : String) : MResult :=
  validated (insertVal z name (.vlist [])) []

/-- Descending `positions.sort(reverse=True)` (insertion sort; Python's sort
is stable, which is indistinguishable on integers). -/
def insertDesc (x : Int) : List Int → List Int
  | [] => [x]
  | y :: ys => if x ≥ y then x :: y :: ys else y :: insertDesc x ys

/-- `positions.sort(reverse=True)` from `delete_list_field_entries`. -/
def sortDesc : List Int → List Int
  | [] => []
  | x :: xs => insertDesc x (sortDesc xs)

/-- Python `del items[p]` on a list: a valid index is `-n ≤ p < n`, negative
indices count from the end; anything else raises `IndexError`. -/
def pyDelAt (items : List Value) (p : Int) : Except PyError (List Value) :=
  if 0 ≤ p then
    if p < items.length then .ok (items.eraseIdx p.toNat)
    else .error .indexError
  else
    if 0 ≤ p + items.length then .ok (items.eraseIdx (p + items.length).toNat)
    else .error .indexError

/-- The deletion loop `for position in positions: del self.zettel[name][position]`
running over an already-sorted position list. -/
def pyDelAll (items : List Value) : List Int → Except PyError (List Value)
  | [] => .ok items
  | p :: rest =>
      match pyDelAt items p with
      | .ok items1 => pyDelAll items1 rest
      | .error e => .error e

/-- `Zettel.delete_list_field_entries(name, positions)`: early return when the
field is absent; sort positions descending; delete each; delete the whole
field when the remaining container is empty.  Deleting by integer position
from a string raises `TypeError`, from a dict `KeyError`, and `len()` of a
scalar raises `TypeError`.  This method never calls `parse_zettel`. -/
def delete_list_field_entries (z : Record) (name : String) (positions : List Int) :
    MResult :=
  match lookup z name with
  | none => .ok (z, [])
  | some v =>
      let sorted := sortDesc positions
      match v with
      | .vlist items =>
          match pyDelAll items sorted with
          | .error e => .error e
          | .ok items1 =>
              if items1.length = 0 then .ok (eraseKey z name, [])
              else .ok (insertVal z name (.vlist items1), [])
      | .vstr s =>
          match sorted with
          | _ :: _ => .error .typeError
          | [] => if s.length = 0 then .ok (eraseKey z name, []) else .ok (z, [])
      | .vdict entries =>
          match sorted with
          | _ :: _ => .error .keyError
          | [] => if entries.length = 0 then .ok (eraseKey z name, []) else .ok (z, [])
      | _ => .error .typeError

/-- A value Python can place in a `set` (hashable): everything except lists
and dicts. -/
def hashable : Value → Bool
  | .vlist _ => false
  | .vdict _ => false
  | _ => true

/-- `value in set(cur)` from `append_list_field`: building `set(cur)` raises
`TypeError` when `cur` is not iterable (scalars) or contains an unhashable
element; `set` of a string is its set of one-character strings, `set` of a
dict its key set.  The membership test then hashes `value` itself, so an
unhashable `value` (a list or a dict) raises `TypeError` as well, even
against an empty or all-hashable set. -/
def pySetMem (value : Value) (cur : Value) : Except PyError Bool :=
  match cur with
  | .vlist items =>
      if items.all hashable then
        if hashable value then .ok (items.contains value) else .error .typeError
      else .error .typeError
  | .vstr s =>
      if hashable value then
        .ok (match value with
             | .vstr v => s.data.any (fun c => v = String.mk [c])
             | _ => false)
      else .error .typeError
  | .vdict entries =>
      if hashable value then
        .ok (match value with
             | .vstr v => entries.any (fun p => p.1 = v)
             | _ => false)
      else .error .typeError
  | _ => .error .typeError

/-- `Zettel.append_list_field(name, value)`: re-assign
`self.zettel[name] = self.zettel.get(name, [])`, then append `value` only if
it is not in `set(self.zettel[name])`; only an actual append is followed by
`parse_zettel`.  Appending to a non-list raises `AttributeError`. -/
def append_list_field (z : Record) (name : String) (value : Value) : MResult :=
  let cur := (lookup z name).getD (.vlist [])
  let z0 := insertVal z name cur
  match pySetMem value cur with
  | .error e => .error e
  | .ok true => .ok (z0, [])
  | .ok false =>
      match cur with
      | .vlist items => validated (insertVal z0 name (.vlist (items ++ [value]))) []
      | _ => .error .attributeError

/-- `Zettel.get_list_field(name)`. -/
def get_list_field (z : Record) (name : String) : Value :=
  (lookup z name).getD (.vlist [])

/-- `Zettel.set_citation(bibkey, page=None)`: replace the whole `cite` field
with a freshly built dict, then re-validate. -/
def set_citation (z : Record) (bibkey : String) (page : Option String := none) :
    MResult :=
  let citation : List (String × Value) :=
    match page with
    | some p => [("bibkey", .vstr bibkey), ("page", .vstr p)]
    | none => [("bibkey", .vstr bibkey)]
  validated (insertVal z "cite" (.vdict citation)) []

/-- `Zettel.has_citation()`. -/
def has_citation (z : Record) : Bool :=
  containsKey z "cite"

/-- Update sub-field `sub` of the structured field `name`, as the guarded
sub-field setters do: empty argument → immediate return without validation;
otherwise assign into the nested dict only when the field is present (a
present non-dict raises `TypeError` on item assignment), and in every
non-early-return path finish with `parse_zettel`. -/
def set_structured_sub (z : Record) (name sub : String) (value : String) : MResult :=
  if value.length = 0 then .ok (z, [])
  else
    match lookup z name with
    | none => validated z []
    | some (.vdict entries) =>
        validated (insertVal z name (.vdict (insertVal entries sub (.vstr value)))) []
    | some _ => .error .typeError

/-- `Zettel.set_cite_bibkey(bibkey)`. -/
def set_cite_bibkey (z : Record) (bibkey : String) : MResult :=
  set_structured_sub z "cite" "bibkey" bibkey

/-- `Zettel.set_cite_page(page)`. -/
def set_cite_page (z : Record) (page : String) : MResult :=
  set_structured_sub z "cite" "page" page

/-- `Zettel.has_dates()`. -/
def has_dates (z : Record) : Bool :=
  containsKey z "dates"

/-- `Zettel.set_dates_year(year)`. -/
def set_dates_year (z : Record) (year : String) : MResult :=
  set_structured_sub z "dates" "year" year

/-- `Zettel.set_dates_era(era)`. -/
def set_dates_era (z : Record) (era : String) : MResult :=
  set_structured_sub z "dates" "era" era

/-- `Zettel.set_dates(year, era=None)`: replace the whole `dates` field, then
re-validate. -/
def set_dates (z : Record) (year : String) (era : Option String := none) : MResult :=
  let dates : List (String × Value) :=
    match era with
    | some e => [("year", .vstr year), ("era", .vstr e)]
    | none => [("year", .vstr year)]
  validated (insertVal z "dates" (.vdict dates)) []

/-- `Zettel.load_field(name, filename)`: the file read is an external
collaborator, so the joined file contents are taken as the `text` argument;
the text is stripped, stored through `set_field` (which validates), and then
`parse_zettel` runs once more. -/
def load_field (z : Record) (name : String) (text : String) : MResult :=
  match set_field z name (.vstr text.trim) with
  | .error e => .error e
  | .ok (z1, log) =>
      match parse_zettel z1 with
      | .ok _ => .ok (z1, log ++ [z1])
      | .error e => .error e

end Zettel

/-! ## The CLI batch pipeline (`process_zettel_command_line_options`)

The function iterates `vargs` (one entry per present command-line flag,
skipping falsy values) twice: a first loop applying every `reset_*`,
`delete_*` and `remove_entries_in_*` request, a second loop applying every
`set_cite`, `set_dates`, `set_*`, `append_*` and `load_*` request.  A batch
is modelled as the list of present requests; the interactive `prompt_*`
requests (terminal I/O) are outside the modelled core. -/

/-- One command-line mutation request. -/
inductive ZOp where
  | resetList (name : String) : ZOp
  | deleteField (name : String) : ZOp
  | removeEntries (zid : Int) (name : String) (positions : List Int) : ZOp
  | setCite (bibkey : String) (pages : String) : ZOp
  | setDates (year : String) (era : String) : ZOp
  | setField (name : String) (value : String) : ZOp
  | appendList (name : String) (values : List String) : ZOp
  | loadField (name : String) (text : String) : ZOp
  deriving Repr, DecidableEq

namespace ZOp

/-- The requests handled by the first loop (`reset_*`, `delete_*`,
`remove_entries_in_*`). -/
def isDestructive : ZOp → Bool
  | .resetList _ => true
  | .deleteField _ => true
  | .removeEntries _ _ _ => true
  | _ => false

end ZOp

/-- Drop the validation log of a mutation-engine call, keeping the record. -/
def runM (r : MResult) : Except PyError Record :=
  r.map (fun p => p.1)

/-- Apply one command-line request to a record, as the corresponding branch of
`process_zettel_command_line_options` does.  `id` is the running zettel id
against which a `remove_entries_in_*` request's target id is compared. -/
def applyZOp (id : Int) (z : Record) : ZOp → Except PyError Record
  | .resetList name => runM (Zettel.reset_list_field z name)
  | .deleteField name => runM (Zettel.delete_field z name)
  | .removeEntries zid name positions =>
      if id = zid then runM (Zettel.delete_list_field_entries z name positions)
      else .ok z
  | .setCite bibkey pages =>
      if Zettel.has_citation z then
        match Zettel.set_cite_bibkey z bibkey with
        | .error e => .error e
        | .ok (z1, _) => runM (Zettel.set_cite_page z1 pages)
      else runM (Zettel.set_citation z bibkey (some pages))
  | .setDates year era =>
      if Zettel.has_dates z then
        match Zettel.set_dates_year z year with
        | .error e => .error e
        | .ok (z1, _) => runM (Zettel.set_dates_era z1 era)
      else runM (Zettel.set_dates z year (some era))
  | .setField name value => runM (Zettel.set_field z name (.vstr value))
  | .appendList name values =>
      values.foldlM (fun acc text => runM (Zettel.append_list_field acc name (.vstr text))) z
  | .loadField name text => runM (Zettel.load_field z name text)

/-- `process_zettel_command_line_options(z, vargs, id)`: the first loop
applies exactly the destructive requests in batch order, the second loop
exactly the additive requests in batch order. -/
def process_zettel_command_line_options (id : Int) (z : Record) (ops : List ZOp) :
    Except PyError Record :=
  (ops.foldlM (fun acc op => if op.isDestructive then applyZOp id acc op else .ok acc) z)
    >>= fun z1 =>
  ops.foldlM (fun acc op => if op.isDestructive then .ok acc else applyZOp id acc op) z1

/-! ## The flattener -/

mutual

/-- The termination measure for `flatten`: a dict dominates the list of
joined `key:value` strings that the dict case recurses on. -/
def fmeasure : Value → Nat
  | .vnull => 0
  | .vstr _ => 0
  | .vint _ => 0
  | .vbool _ => 0
  | .vlist items => 1 + items.length + fmeasureList items
  | .vdict entries => 2 + 2 * entries.length + fmeasureDict entries

/-- Summed measure of a list of values. -/
def fmeasureList : List Value → Nat
  | [] => 0
  | x :: rest => fmeasure x + fmeasureList rest

/-- Summed measure of the values of a dict. -/
def fmeasureDict : List (String × Value) → Nat
  | [] => 0
  | p :: rest => fmeasure p.2 + fmeasureDict rest

end

theorem fmeasureList_map_vstr (joined : List String) :
    fmeasureList (joined.map Value.vstr) = 0 := by
  induction joined with
  | nil => rfl
  | cons j rest ih => simpa [fmeasureList, fmeasure] using ih

/-- The list comprehension `[":".join([k, item[k]]) for k in item]`:
`str.join` raises `TypeError` on a non-string value. -/
def joinEntries : List (String × Value) → Except PyError (List String)
  | [] => .ok []
  | (k, v) :: rest =>
      match v with
      | .vstr s =>
          match joinEntries rest with
          | .ok tail => .ok ((k ++ ":" ++ s) :: tail)
          | .error e => .error e
      | _ => .error .typeError

theorem joinEntries_length {entries : List (String × Value)} {joined : List String}
    (h : joinEntries entries = .ok joined) : joined.length = entries.length := by
  induction entries generalizing joined with
  | nil => cases h; rfl
  | cons p rest ih =>
      obtain ⟨k, v⟩ := p
      cases v <;> simp only [joinEntries] at h <;> try cases h
      rename_i s
      cases htail : joinEntries rest with
      | ok tail => rw [htail] at h; cases h; simp [ih htail]
      | error e => rw [htail] at h; cases h

/-- `flatten(item)` from the source: `None` becomes `[""]`; a dict recurses on
the list of its joined `"key:value"` strings; a non-list scalar becomes
`[str(item)]`; the empty list is returned as is; a non-empty list is
`flatten(head) + flatten(tail)`. -/
def flatten (item : Value) : Except PyError (List String) :=
  match item with
  | .vnull => .ok [""]
  | .vdict entries =>
      match h : joinEntries entries with
      | .ok joined => flatten (.vlist (joined.map Value.vstr))
      | .error e => .error e
  | .vstr s => .ok [s]
  | .vint n => .ok [toString n]
  | .vbool b => .ok [if b then "True" else "False"]
  | .vlist [] => .ok []
  | .vlist (x :: rest) =>
      match flatten x with
      | .error e => .error e
      | .ok a =>
          match flatten (.vlist rest) with
          | .error e => .error e
          | .ok b => .ok (a ++ b)
  termination_by fmeasure item
  decreasing_by
  · have hlen : joined.length = entries.length := joinEntries_length h
    simp [fmeasure, fmeasureList_map_vstr, hlen]
    omega
  · simp [fmeasure, fmeasureList]
    omega
  · simp [fmeasure, fmeasureList]
    omega

/-- `Zettel.get_indexed_representation()`: each present field mapped to the
comma-joined flattening of its value. -/
def get_indexed_representation (z : Record) : Except PyError (List (String × String)) :=
  match parse_zettel z with
  | .error e => .error e
  | .ok _ =>
      z.mapM (fun p =>
        match flatten p.2 with
        | .ok parts => .ok (p.1, String.intercalate "," parts)
        | .error e => .error (e : PyError))

/-! ## The serializer (`Zettel.get_yaml`)

The loop of `get_yaml` builds an `OrderedDict` by walking the canonical field
order; a String-category field is wrapped in `literal` (a `str` subclass, so
the value itself is unchanged); `document` is skipped; every other field is
emitted as `value.copy()`, and a value without a `.copy` method (a string or
`None` — in practice `filename`, or a present-but-null `cite`/`dates`) raises
`AttributeError`, which the `try`/`except` turns into a warning and a skipped
field.  The resulting mapping is then handed to `yaml.dump`. -/

/-- Python `value.copy()` under the serializer's `try`: lists and dicts have
a shallow `.copy`; other values raise `AttributeError` (`none` here). -/
def copyValue : Value → Option Value
  | .vlist items => some (.vlist items)
  | .vdict entries => some (.vdict entries)
  | _ => none

/-- One iteration of the `get_yaml` loop: the entry (if any) contributed by
field `key`. -/
def emit_entry (z : Record) (restrict : List String) (key : String) :
    Option (String × Value) :=
  (lookup z key).bind (fun v =>
    if key ∈ restrict then
      if key ∈ ZettelStringFields then some (key, v)
      else if key = "document" then none
      else (copyValue v).map (fun v1 => (key, v1))
    else none)

/-- The `OrderedDict` built by the `get_yaml` loop, in canonical field
order. -/
def get_yaml_mapping (z : Record) (restrict : List String) : List (String × Value) :=
  ZettelFieldsOrdered.filterMap (emit_entry z restrict)

/-! ### The YAML text codec

`yaml.dump` / `yaml.load` come from PyYAML, an external collaborator of the
repository.  Modelled from the spec: the serializer "converts a validated
Record (restricted to a field subset) into canonical YAML text" with a
round-trip guarantee, so the external codec is modelled as an injective
line-structured text encoding of the emitted mapping together with its exact
decoder.  Every theorem about the codec is conditional on the value shapes a
validated record can emit (strings, lists of strings, string-valued dicts). -/

/-- Escape a character: backslash, newline and tab get two-character escape
sequences; everything else stands for itself. -/
def escChar (c : Char) : List Char :=
  if c = '\\' then ['\\', '\\']
  else if c = '\n' then ['\\', 'n']
  else if c = '\t' then ['\\', 't']
  else [c]

/-- Escape a scalar's characters so that the result contains no raw newline
or tab. -/
def esc : List Char → List Char
  | [] => []
  | c :: rest => escChar c ++ esc rest

/-- Inverse of `esc`. -/
def unesc : List Char → Option (List Char)
  | [] => some []
  | c :: rest =>
      if c = '\\' then
        match rest with
        | [] => none
        | c2 :: rest2 =>
            if c2 = '\\' then (unesc rest2).map (fun t => '\\' :: t)
            else if c2 = 'n' then (unesc rest2).map (fun t => '\n' :: t)
            else if c2 = 't' then (unesc rest2).map (fun t => '\t' :: t)
            else none
      else (unesc rest).map (fun t => c :: t)

/-- Encode one emitted value as a tagged payload: `s` + escaped text for a
string, `l` + one tab-terminated escaped item per element for a list of
strings, `d` + one tab-terminated `key:value` chunk per entry for a
string-valued dict.  Values outside the emitted shapes get an opaque
placeholder (they are exactly the shapes excluded from the round-trip
guarantee). -/
def encValue : Value → List Char
  | .vstr s => 's' :: esc s.data
  | .vlist items =>
      'l' :: (items.map (fun x =>
        match x with
        | .vstr s => esc s.data ++ ['\t']
        | _ => ['?', '\t'])).flatten
  | .vdict entries =>
      'd' :: (entries.map (fun p =>
        match p.2 with
        | .vstr s => p.1.data ++ ':' :: esc s.data ++ ['\t']
        | _ => ['?', '\t'])).flatten
  | _ => ['?']

/-- The modelled `yaml.dump`: one `key:payload` line per emitted entry. -/
def yaml_dump (m : List (String × Value)) : String :=
  String.mk ((m.map (fun p => p.1.data ++ ':' :: encValue p.2 ++ ['\n'])).flatten)

/-- "is not a colon". -/
def notColon (c : Char) : Bool := ¬ c = ':'

/-- Split a character stream into its `sep`-terminated chunks; fails when a
trailing chunk is unterminated. -/
def splitSeq (sep : Char) : List Char → Option (List (List Char))
  | [] => some []
  | c :: rest =>
      if c = sep then (splitSeq sep rest).map (fun ls => [] :: ls)
      else
        (splitSeq sep rest).bind (fun ls =>
          match ls with
          | chunk :: more => some ((c :: chunk) :: more)
          | [] => none)

/-- Decode a tagged payload back into a value. -/
def decValue : List Char → Option Value
  | 's' :: rest => (unesc rest).map (fun cs => .vstr (String.mk cs))
  | 'l' :: rest =>
      (splitSeq '\t' rest).bind (fun chunks =>
        (chunks.mapM unesc).map (fun strs => .vlist (strs.map (fun cs => .vstr (String.mk cs)))))
  | 'd' :: rest =>
      (splitSeq '\t' rest).bind (fun chunks =>
        (chunks.mapM (fun (chunk : List Char) =>
          let k := chunk.takeWhile notColon
          match chunk.dropWhile notColon with
          | ':' :: vs => (unesc vs).map (fun cs => (String.mk k, Value.vstr (String.mk cs)))
          | _ => none)).map Value.vdict)
  | _ => none

/-- The modelled `yaml.load`: split into lines, split each line at its first
colon, decode the payload. -/
def yaml_load (s : String) : Option Record :=
  (splitSeq '\n' s.data).bind (fun lines =>
    lines.mapM (fun (line : List Char) =>
      let k := line.takeWhile notColon
      match line.dropWhile notColon with
      | ':' :: pv => (decValue pv).map (fun v => (String.mk k, v))
      | _ => none))

namespace Zettel

/-- `Zettel.get_yaml(restrict_to_fields)`: re-validate, build the ordered
mapping, and return its YAML text — or the empty string when no field
qualifies. -/
def get_yaml (z : Record) (restrict : List String := ZettelFieldsOrdered) :
    Except PyError String :=
  match parse_zettel z with
  | .error e => .error e
  | .ok _ =>
      let m := get_yaml_mapping z restrict
      if m.length > 0 then .ok (yaml_dump m) else .ok ""

/-- `Zettel.get_document()`. -/
def get_document (z : Record) : Value :=
  (lookup z "document").getD (.vstr "")

end Zettel

/-! ## Dictionary and validator lemmas -/

theorem eraseKey_nil (k : String) : eraseKey [] k = [] := rfl

theorem eraseKey_cons (k1 : String) (v1 : Value) (rest : Record) (k : String) :
    eraseKey ((k1, v1) :: rest) k =
      if k1 = k then eraseKey rest k else (k1, v1) :: eraseKey rest k := by
  by_cases h : k1 = k <;> simp [eraseKey, h]

theorem lookup_eraseKey (d : Record) (k f : String) :
    lookup (eraseKey d k) f = if f = k then none else lookup d f := by
  induction d with
  | nil => by_cases h : f = k <;> simp [eraseKey_nil, lookup, h]
  | cons p rest ih =>
      obtain ⟨k1, v1⟩ := p
      rw [eraseKey_cons]
      by_cases h1 : k1 = k <;> by_cases h2 : f = k <;> by_cases h3 : k1 = f <;>
        simp_all [lookup]

theorem lookup_map_update_ne (d : Record) (k : String) (v : Value) (f : String)
    (hfk : ¬ f = k) :
    lookup (d.map (fun p => if p.1 = k then (k, v) else p)) f = lookup d f := by
  induction d with
  | nil => rfl
  | cons p rest ih =>
      obtain ⟨k1, v1⟩ := p
      rw [List.map_cons]
      by_cases h1 : k1 = k
      · have hhead : (if (k1, v1).1 = k then (k, v) else (k1, v1)) = (k, v) := by
          simp [h1]
        rw [hhead]
        have hkf : ¬ k = f := fun h => hfk h.symm
        have hk1f : ¬ k1 = f := by rw [h1]; exact hkf
        rw [lookup, if_neg hkf, ih, lookup, if_neg hk1f]
      · have hhead : (if (k1, v1).1 = k then (k, v) else (k1, v1)) = (k1, v1) := by
          simp [h1]
        rw [hhead]
        by_cases h2 : k1 = f
        · rw [lookup, if_pos h2, lookup, if_pos h2]
        · rw [lookup, if_neg h2, ih, lookup, if_neg h2]

theorem insertVal_cons_eq (k : String) (v1 v : Value) (rest : Record) :
    insertVal ((k, v1) :: rest) k v =
      (k, v) :: rest.map (fun p => if p.1 = k then (k, v) else p) := by
  have hc : containsKey ((k, v1) :: rest) k = true := by
    simp [containsKey, lookup]
  rw [insertVal, if_pos hc, List.map_cons]
  have hhead : (if (k, v1).1 = k then (k, v) else (k, v1)) = (k, v) := by simp
  rw [hhead]

theorem insertVal_cons_ne (k1 : String) (v1 : Value) (rest : Record) (k : String)
    (v : Value) (h1 : ¬ k1 = k) :
    insertVal ((k1, v1) :: rest) k v = (k1, v1) :: insertVal rest k v := by
  have hc : containsKey ((k1, v1) :: rest) k = containsKey rest k := by
    simp [containsKey, lookup, h1]
  by_cases hr : containsKey rest k
  · rw [insertVal, hc, if_pos hr, insertVal, if_pos hr, List.map_cons]
    have hhead : (if (k1, v1).1 = k then (k, v) else (k1, v1)) = (k1, v1) := by
      simp [h1]
    rw [hhead]
  · rw [insertVal, hc, if_neg hr, insertVal, if_neg hr, List.cons_append]

theorem lookup_insertVal (d : Record) (k : String) (v : Value) (f : String) :
    lookup (insertVal d k v) f = if f = k then some v else lookup d f := by
  induction d with
  | nil =>
      by_cases h : f = k
      · subst h
        simp [insertVal, containsKey, lookup]
      · have hkf : ¬ k = f := fun hh => h hh.symm
        simp [insertVal, containsKey, lookup, h, hkf]
  | cons p rest ih =>
      obtain ⟨k1, v1⟩ := p
      by_cases h1 : k1 = k
      · subst h1
        rw [insertVal_cons_eq]
        by_cases h2 : f = k1
        · subst h2
          simp [lookup]
        · have hk1f : ¬ k1 = f := fun hh => h2 hh.symm
          rw [lookup, if_neg hk1f, lookup_map_update_ne _ _ _ _ h2, if_neg h2, lookup,
            if_neg hk1f]
      · rw [insertVal_cons_ne _ _ _ _ _ h1]
        by_cases h2 : k1 = f
        · have hfk : ¬ f = k := by rw [← h2]; exact fun hh => h1 hh
          rw [lookup, if_pos h2, if_neg hfk, lookup, if_pos h2]
        · rw [lookup, if_neg h2, ih, lookup, if_neg h2]

theorem mem_eraseKey {d : Record} {k : String} {p : String × Value}
    (h : p ∈ eraseKey d k) : p ∈ d :=
  List.mem_of_mem_filter h

theorem mem_insertVal {d : Record} {k : String} {v : Value} {p : String × Value}
    (h : p ∈ insertVal d k v) : p.1 = k ∨ p ∈ d := by
  unfold insertVal at h
  by_cases hc : containsKey d k
  · rw [if_pos hc] at h
    rw [List.mem_map] at h
    obtain ⟨q, hq, hmap⟩ := h
    by_cases h1 : q.1 = k
    · rw [if_pos h1] at hmap
      left
      rw [← hmap]
    · rw [if_neg h1] at hmap
      right
      rw [← hmap]
      exact hq
  · rw [if_neg hc] at h
    rw [List.mem_append] at h
    rcases h with h | h
    · right; exact h
    · left
      simp at h
      rw [h]

theorem seq_ok_iff {α : Type} (a : Except PyError Unit) (b : Except PyError α) (x : α) :
    (a >>= fun _ => b) = .ok x ↔ (a = .ok () ∧ b = .ok x) := by
  cases a with
  | ok u => cases u; simp [Bind.bind, Except.bind]
  | error e => simp [Bind.bind, Except.bind]

theorem seq_error_iff {α : Type} (a : Except PyError Unit) (b : Except PyError α)
    (e : PyError) :
    (a >>= fun _ => b) = .error e ↔ (a = .error e ∨ (a = .ok () ∧ b = .error e)) := by
  cases a with
  | ok u => cases u; simp [Bind.bind, Except.bind]
  | error e1 => simp [Bind.bind, Except.bind]

theorem check_field_names_ok_iff (d : Record) (nameSet : List String) (label : String) :
    check_field_names d nameSet label = .ok () ↔ ∀ p ∈ d, p.1 ∈ nameSet := by
  induction d with
  | nil => simp [check_field_names]
  | cons p rest ih =>
      obtain ⟨k, v⟩ := p
      by_cases h : k ∈ nameSet
      · simp [check_field_names, h, ih]
      · simp [check_field_names, h]

theorem parse_zettel_ok_iff (doc : Record) :
    parse_zettel doc = .ok () ↔
      (check_field_names doc ZettelFieldsOrdered "Zettel" = .ok () ∧
       parse_string_field doc "title" = .ok () ∧
       parse_string_field doc "bibkey" = .ok () ∧
       parse_string_field doc "bibtex" = .ok () ∧
       parse_string_field doc "ris" = .ok () ∧
       parse_string_field doc "inline" = .ok () ∧
       parse_string_field doc "url" = .ok () ∧
       parse_string_field doc "summary" = .ok () ∧
       parse_string_field doc "comment" = .ok () ∧
       parse_string_field doc "note" = .ok () ∧
       parse_string_field doc "document" = .ok () ∧
       parse_list_of_string_field doc "tags" = .ok () ∧
       parse_list_of_string_field doc "mentions" = .ok () ∧
       parse_citation doc "cite" = .ok () ∧
       parse_dates doc "dates" = .ok ()) := by
  unfold parse_zettel
  simp only [seq_ok_iff]

theorem parse_list_items_ok_iff (field : String) (pos : Nat) (items : List Value) :
    parse_list_items field pos items = .ok () ↔ ∀ x ∈ items, ∃ s, x = Value.vstr s := by
  induction items generalizing pos with
  | nil => simp [parse_list_items]
  | cons x rest ih =>
      cases x <;> simp [parse_list_items, parse_string_opt, ih]

/-! ## Preservation of validity under single-field updates -/

theorem parse_string_field_eraseKey (z : Record) (n f : String) :
    parse_string_field (eraseKey z n) f =
      if f = n then .ok () else parse_string_field z f := by
  unfold parse_string_field
  rw [lookup_eraseKey]
  by_cases h : f = n <;> simp [h, parse_string_opt]

theorem parse_list_field_eraseKey (z : Record) (n f : String) :
    parse_list_of_string_field (eraseKey z n) f =
      if f = n then .ok () else parse_list_of_string_field z f := by
  unfold parse_list_of_string_field
  rw [lookup_eraseKey]
  by_cases h : f = n <;> simp [h, parse_list_opt]

theorem parse_citation_eraseKey (z : Record) (n f : String) :
    parse_citation (eraseKey z n) f =
      if f = n then .ok () else parse_citation z f := by
  unfold parse_citation
  rw [lookup_eraseKey]
  by_cases h : f = n <;> simp [h, parse_cite_opt]

theorem parse_dates_eraseKey (z : Record) (n f : String) :
    parse_dates (eraseKey z n) f =
      if f = n then .ok () else parse_dates z f := by
  unfold parse_dates
  rw [lookup_eraseKey]
  by_cases h : f = n <;> simp [h, parse_dates_opt]

theorem parse_zettel_eraseKey {z : Record} (h : parse_zettel z = .ok ()) (n : String) :
    parse_zettel (eraseKey z n) = .ok () := by
  rw [parse_zettel_ok_iff] at h ⊢
  obtain ⟨hck, h1, h2, h3, h4, h5, h6, h7, h8, h9, h10, h11, h12, h13, h14⟩ := h
  refine ⟨?_, ?_, ?_, ?_, ?_, ?_, ?_, ?_, ?_, ?_, ?_, ?_, ?_, ?_, ?_⟩
  · rw [check_field_names_ok_iff] at hck ⊢
    exact fun p hp => hck p (mem_eraseKey hp)
  · rw [parse_string_field_eraseKey]; split <;> first | rfl | exact h1
  · rw [parse_string_field_eraseKey]; split <;> first | rfl | exact h2
  · rw [parse_string_field_eraseKey]; split <;> first | rfl | exact h3
  · rw [parse_string_field_eraseKey]; split <;> first | rfl | exact h4
  · rw [parse_string_field_eraseKey]; split <;> first | rfl | exact h5
  · rw [parse_string_field_eraseKey]; split <;> first | rfl | exact h6
  · rw [parse_string_field_eraseKey]; split <;> first | rfl | exact h7
  · rw [parse_string_field_eraseKey]; split <;> first | rfl | exact h8
  · rw [parse_string_field_eraseKey]; split <;> first | rfl | exact h9
  · rw [parse_string_field_eraseKey]; split <;> first | rfl | exact h10
  · rw [parse_list_field_eraseKey]; split <;> first | rfl | exact h11
  · rw [parse_list_field_eraseKey]; split <;> first | rfl | exact h12
  · rw [parse_citation_eraseKey]; split <;> first | rfl | exact h13
  · rw [parse_dates_eraseKey]; split <;> first | rfl | exact h14

theorem parse_string_field_insertVal (z : Record) (n : String) (v : Value) (f : String) :
    parse_string_field (insertVal z n v) f =
      if f = n then parse_string_opt f (some v) false else parse_string_field z f := by
  unfold parse_string_field
  rw [lookup_insertVal]
  by_cases h : f = n <;> simp [h]

theorem parse_list_field_insertVal (z : Record) (n : String) (v : Value) (f : String) :
    parse_list_of_string_field (insertVal z n v) f =
      if f = n then parse_list_opt f (some v) false else parse_list_of_string_field z f := by
  unfold parse_list_of_string_field
  rw [lookup_insertVal]
  by_cases h : f = n <;> simp [h]

theorem parse_citation_insertVal (z : Record) (n : String) (v : Value) (f : String) :
    parse_citation (insertVal z n v) f =
      if f = n then parse_cite_opt f (some v) else parse_citation z f := by
  unfold parse_citation
  rw [lookup_insertVal]
  by_cases h : f = n <;> simp [h]

theorem parse_dates_insertVal (z : Record) (n : String) (v : Value) (f : String) :
    parse_dates (insertVal z n v) f =
      if f = n then parse_dates_opt f (some v) else parse_dates z f := by
  unfold parse_dates
  rw [lookup_insertVal]
  by_cases h : f = n <;> simp [h]

/-- The validator component that inspects field `n` when it is present with
value `v`: string check for String-category fields (including `document`),
list check for `tags`/`mentions`, structured checks for `cite`/`dates`;
`filename` is inspected by no component. -/
def fieldCheck (n : String) (v : Value) : Except PyError Unit :=
  if n ∈ ZettelStringFields ∨ n = "document" then parse_string_opt n (some v) false
  else if n = "tags" ∨ n = "mentions" then parse_list_opt n (some v) false
  else if n = "cite" then parse_cite_opt n (some v)
  else if n = "dates" then parse_dates_opt n (some v)
  else .ok ()

theorem parse_zettel_insertVal_ok {z : Record} (h : parse_zettel z = .ok ())
    {n : String} (hn : n ∈ ZettelFieldsOrdered) {v : Value}
    (hv : fieldCheck n v = .ok ()) :
    parse_zettel (insertVal z n v) = .ok () := by
  rw [parse_zettel_ok_iff] at h ⊢
  obtain ⟨hck, h1, h2, h3, h4, h5, h6, h7, h8, h9, h10, h11, h12, h13, h14⟩ := h
  refine ⟨?_, ?_, ?_, ?_, ?_, ?_, ?_, ?_, ?_, ?_, ?_, ?_, ?_, ?_, ?_⟩
  · rw [check_field_names_ok_iff] at hck ⊢
    intro p hp
    rcases mem_insertVal hp with hk | hk
    · rw [hk]; exact hn
    · exact hck p hk
  · rw [parse_string_field_insertVal]; split
    · rename_i hf; subst hf; exact hv
    · exact h1
  · rw [parse_string_field_insertVal]; split
    · rename_i hf; subst hf; exact hv
    · exact h2
  · rw [parse_string_field_insertVal]; split
    · rename_i hf; subst hf; exact hv
    · exact h3
  · rw [parse_string_field_insertVal]; split
    · rename_i hf; subst hf; exact hv
    · exact h4
  · rw [parse_string_field_insertVal]; split
    · rename_i hf; subst hf; exact hv
    · exact h5
  · rw [parse_string_field_insertVal]; split
    · rename_i hf; subst hf; exact hv
    · exact h6
  · rw [parse_string_field_insertVal]; split
    · rename_i hf; subst hf; exact hv
    · exact h7
  · rw [parse_string_field_insertVal]; split
    · rename_i hf; subst hf; exact hv
    · exact h8
  · rw [parse_string_field_insertVal]; split
    · rename_i hf; subst hf; exact hv
    · exact h9
  · rw [parse_string_field_insertVal]; split
    · rename_i hf; subst hf; exact hv
    · exact h10
  · rw [parse_list_field_insertVal]; split
    · rename_i hf; subst hf; exact hv
    · exact h11
  · rw [parse_list_field_insertVal]; split
    · rename_i hf; subst hf; exact hv
    · exact h12
  · rw [parse_citation_insertVal]; split
    · rename_i hf; subst hf; exact hv
    · exact h13
  · rw [parse_dates_insertVal]; split
    · rename_i hf; subst hf; exact hv
    · exact h14

/-! ## Every validator failure is a `ParseError` -/

theorem check_field_names_error {d : Record} {s : List String} {l : String}
    {e : PyError} (h : check_field_names d s l = .error e) :
    ∃ m, e = PyError.parseError m := by
  induction d with
  | nil => simp [check_field_names] at h
  | cons p rest ih =>
      obtain ⟨k, v⟩ := p
      by_cases hk : k ∈ s
      · rw [check_field_names, if_pos hk] at h
        exact ih h
      · rw [check_field_names, if_neg hk] at h
        cases h
        exact ⟨_, rfl⟩

theorem parse_string_opt_error {f : String} {v : Option Value} {r : Bool}
    {e : PyError} (h : parse_string_opt f v r = .error e) :
    ∃ m, e = PyError.parseError m := by
  match v with
  | none =>
      rw [parse_string_opt] at h
      by_cases hr : r = true
      · rw [if_pos hr] at h; cases h; exact ⟨_, rfl⟩
      · rw [if_neg hr] at h; cases h
  | some .vnull =>
      rw [parse_string_opt] at h
      by_cases hr : r = true
      · rw [if_pos hr] at h; cases h; exact ⟨_, rfl⟩
      · rw [if_neg hr] at h; cases h; exact ⟨_, rfl⟩
  | some (.vstr s) => rw [parse_string_opt] at h; cases h
  | some (.vint n) =>
      simp only [parse_string_opt] at h
      exact ⟨_, (Except.error.inj h).symm⟩
  | some (.vbool b) =>
      simp only [parse_string_opt] at h
      exact ⟨_, (Except.error.inj h).symm⟩
  | some (.vlist xs) =>
      simp only [parse_string_opt] at h
      exact ⟨_, (Except.error.inj h).symm⟩
  | some (.vdict xs) =>
      simp only [parse_string_opt] at h
      exact ⟨_, (Except.error.inj h).symm⟩

theorem parse_string_field_error {z : Record} {f : String} {r : Bool} {e : PyError}
    (h : parse_string_field z f r = .error e) : ∃ m, e = PyError.parseError m :=
  parse_string_opt_error h

theorem parse_list_items_error {f : String} {pos : Nat} {items : List Value}
    {e : PyError} (h : parse_list_items f pos items = .error e) :
    ∃ m, e = PyError.parseError m := by
  induction items generalizing pos with
  | nil => simp [parse_list_items] at h
  | cons x rest ih =>
      rw [parse_list_items] at h
      cases hx : parse_string_opt (f ++ "(" ++ toString pos ++ ")") (some x) true with
      | ok u => rw [hx] at h; exact ih h
      | error e1 =>
          rw [hx] at h
          cases h
          exact parse_string_opt_error hx

theorem parse_list_opt_error {f : String} {v : Option Value} {r : Bool} {e : PyError}
    (h : parse_list_opt f v r = .error e) : ∃ m, e = PyError.parseError m := by
  match v with
  | none =>
      rw [parse_list_opt] at h
      by_cases hr : r = true
      · rw [if_pos hr] at h; cases h; exact ⟨_, rfl⟩
      · rw [if_neg hr] at h; cases h
  | some .vnull =>
      rw [parse_list_opt] at h
      by_cases hr : r = true
      · rw [if_pos hr] at h; cases h; exact ⟨_, rfl⟩
      · rw [if_neg hr] at h; cases h; exact ⟨_, rfl⟩
  | some (.vlist xs) => rw [parse_list_opt] at h; exact parse_list_items_error h
  | some (.vstr s) =>
      simp only [parse_list_opt] at h
      exact ⟨_, (Except.error.inj h).symm⟩
  | some (.vint n) =>
      simp only [parse_list_opt] at h
      exact ⟨_, (Except.error.inj h).symm⟩
  | some (.vbool b) =>
      simp only [parse_list_opt] at h
      exact ⟨_, (Except.error.inj h).symm⟩
  | some (.vdict xs) =>
      simp only [parse_list_opt] at h
      exact ⟨_, (Except.error.inj h).symm⟩

theorem parse_list_of_string_field_error {z : Record} {f : String} {r : Bool}
    {e : PyError} (h : parse_list_of_string_field z f r = .error e) :
    ∃ m, e = PyError.parseError m :=
  parse_list_opt_error h

theorem parse_cite_opt_error {f : String} {v : Option Value} {e : PyError}
    (h : parse_cite_opt f v = .error e) : ∃ m, e = PyError.parseError m := by
  match v with
  | none => rw [parse_cite_opt] at h; cases h
  | some .vnull => rw [parse_cite_opt] at h; cases h
  | some (.vdict entries) =>
      rw [parse_cite_opt] at h
      simp only [seq_error_iff] at h
      rcases h with h | ⟨-, h | ⟨-, h⟩⟩
      · exact check_field_names_error h
      · exact parse_string_field_error h
      · exact parse_string_field_error h
  | some (.vstr s) =>
      simp only [parse_cite_opt] at h
      exact ⟨_, (Except.error.inj h).symm⟩
  | some (.vint n) =>
      simp only [parse_cite_opt] at h
      exact ⟨_, (Except.error.inj h).symm⟩
  | some (.vbool b) =>
      simp only [parse_cite_opt] at h
      exact ⟨_, (Except.error.inj h).symm⟩
  | some (.vlist xs) =>
      simp only [parse_cite_opt] at h
      exact ⟨_, (Except.error.inj h).symm⟩

theorem parse_dates_opt_error {f : String} {v : Option Value} {e : PyError}
    (h : parse_dates_opt f v = .error e) : ∃ m, e = PyError.parseError m := by
  match v with
  | none => rw [parse_dates_opt] at h; cases h
  | some .vnull => rw [parse_dates_opt] at h; cases h
  | some (.vdict entries) =>
      rw [parse_dates_opt] at h
      simp only [seq_error_iff] at h
      rcases h with h | ⟨-, h | ⟨-, h⟩⟩
      · exact check_field_names_error h
      · exact parse_string_field_error h
      · exact parse_string_field_error h
  | some (.vstr s) =>
      simp only [parse_dates_opt] at h
      exact ⟨_, (Except.error.inj h).symm⟩
  | some (.vint n) =>
      simp only [parse_dates_opt] at h
      exact ⟨_, (Except.error.inj h).symm⟩
  | some (.vbool b) =>
      simp only [parse_dates_opt] at h
      exact ⟨_, (Except.error.inj h).symm⟩
  | some (.vlist xs) =>
      simp only [parse_dates_opt] at h
      exact ⟨_, (Except.error.inj h).symm⟩

theorem parse_zettel_error {doc : Record} {e : PyError}
    (h : parse_zettel doc = .error e) : ∃ m, e = PyError.parseError m := by
  unfold parse_zettel at h
  simp only [seq_error_iff] at h
  rcases h with h | ⟨-, h | ⟨-, h | ⟨-, h | ⟨-, h | ⟨-, h | ⟨-, h | ⟨-, h | ⟨-, h | ⟨-,
    h | ⟨-, h | ⟨-, h | ⟨-, h | ⟨-, h | ⟨-, h⟩⟩⟩⟩⟩⟩⟩⟩⟩⟩⟩⟩⟩⟩
  · exact check_field_names_error h
  · exact parse_string_field_error h
  · exact parse_string_field_error h
  · exact parse_string_field_error h
  · exact parse_string_field_error h
  · exact parse_string_field_error h
  · exact parse_string_field_error h
  · exact parse_string_field_error h
  · exact parse_string_field_error h
  · exact parse_string_field_error h
  · exact parse_string_field_error h
  · exact parse_list_of_string_field_error h
  · exact parse_list_of_string_field_error h
  · exact parse_cite_opt_error h
  · exact parse_dates_opt_error h

theorem validated_error {z : Record} {log : List Record} {e : PyError}
    (h : Zettel.validated z log = .error e) : ∃ m, e = PyError.parseError m := by
  unfold Zettel.validated at h
  cases hp : parse_zettel z with
  | ok u => rw [hp] at h; cases h
  | error e1 =>
      rw [hp] at h
      cases h
      exact parse_zettel_error hp

theorem validated_ok {z : Record} {log : List Record} {z1 : Record}
    {log1 : List Record} (h : Zettel.validated z log = .ok (z1, log1)) :
    z1 = z ∧ log1 = log ++ [z] ∧ parse_zettel z = .ok () := by
  unfold Zettel.validated at h
  cases hp : parse_zettel z with
  | ok u =>
      cases u
      rw [hp] at h
      cases h
      exact ⟨rfl, rfl, rfl⟩
  | error e1 => rw [hp] at h; cases h

/-! ## What a validated record guarantees per field -/

theorem valid_keys {z : Record} (h : parse_zettel z = .ok ()) :
    ∀ p ∈ z, p.1 ∈ ZettelFieldsOrdered := by
  rw [parse_zettel_ok_iff] at h
  rw [check_field_names_ok_iff] at h
  exact fun p hp => h.1 p hp

theorem parse_string_opt_some_ok {f : String} {v : Value} {r : Bool}
    (h : parse_string_opt f (some v) r = .ok ()) : ∃ s, v = Value.vstr s := by
  cases v with
  | vnull => cases r <;> simp [parse_string_opt] at h
  | vstr s => exact ⟨s, rfl⟩
  | vint n => simp [parse_string_opt] at h
  | vbool b => simp [parse_string_opt] at h
  | vlist xs => simp [parse_string_opt] at h
  | vdict xs => simp [parse_string_opt] at h

theorem valid_string_field {z : Record} (h : parse_zettel z = .ok ()) {f : String}
    (hf : f ∈ ZettelStringFields ∨ f = "document") :
    lookup z f = none ∨ ∃ s, lookup z f = some (.vstr s) := by
  rw [parse_zettel_ok_iff] at h
  obtain ⟨hck, h1, h2, h3, h4, h5, h6, h7, h8, h9, h10, h11, h12, h13, h14⟩ := h
  have hc : parse_string_field z f = .ok () := by
    simp [ZettelStringFields] at hf
    rcases hf with ⟨hf | hf | hf | hf | hf | hf | hf | hf | hf⟩ | hf <;> subst hf <;>
      assumption
  unfold parse_string_field at hc
  cases hl : lookup z f with
  | none => exact Or.inl rfl
  | some v =>
      rw [hl] at hc
      obtain ⟨s, hs⟩ := parse_string_opt_some_ok hc
      exact Or.inr ⟨s, by rw [hs]⟩

theorem valid_list_field {z : Record} (h : parse_zettel z = .ok ()) {f : String}
    (hf : f = "tags" ∨ f = "mentions") :
    lookup z f = none ∨
      ∃ items, lookup z f = some (.vlist items) ∧ ∀ x ∈ items, ∃ s, x = Value.vstr s := by
  rw [parse_zettel_ok_iff] at h
  obtain ⟨hck, h1, h2, h3, h4, h5, h6, h7, h8, h9, h10, h11, h12, h13, h14⟩ := h
  have hc : parse_list_of_string_field z f = .ok () := by
    rcases hf with hf | hf <;> subst hf <;> assumption
  unfold parse_list_of_string_field at hc
  cases hl : lookup z f with
  | none => exact Or.inl rfl
  | some v =>
      rw [hl] at hc
      cases v <;> simp [parse_list_opt] at hc
      rw [parse_list_items_ok_iff] at hc
      exact Or.inr ⟨_, rfl, hc⟩

theorem lookup_of_mem_nodup {d : Record} (hnd : (d.map Prod.fst).Nodup)
    {p : String × Value} (hp : p ∈ d) : lookup d p.1 = some p.2 := by
  induction d with
  | nil => cases hp
  | cons q rest ih =>
      obtain ⟨k1, v1⟩ := q
      rw [List.map_cons, List.nodup_cons] at hnd
      rcases List.mem_cons.mp hp with hq | hq
      · subst hq
        simp [lookup]
      · have hne : ¬ k1 = p.1 := by
          intro hk
          exact hnd.1 (hk ▸ List.mem_map.mpr ⟨p, hq, rfl⟩)
        rw [lookup, if_neg hne]
        exact ih hnd.2 hq

theorem valid_structured_field {z : Record} (h : parse_zettel z = .ok ())
    {f : String} (hf : f = "cite" ∨ f = "dates") :
    lookup z f = none ∨ lookup z f = some .vnull ∨
      ∃ entries, lookup z f = some (.vdict entries) ∧
        (∀ p ∈ entries, p.1 ∈ CitationFields ++ DatesFields) ∧
        ((entries.map Prod.fst).Nodup → ∀ p ∈ entries, ∃ s, p.2 = Value.vstr s) := by
  rw [parse_zettel_ok_iff] at h
  obtain ⟨hck, h1, h2, h3, h4, h5, h6, h7, h8, h9, h10, h11, h12, h13, h14⟩ := h
  rcases hf with hf | hf <;> subst hf
  · unfold parse_citation at h13
    cases hl : lookup z "cite" with
    | none => exact Or.inl rfl
    | some v =>
        rw [hl] at h13
        cases v with
        | vnull => exact Or.inr (Or.inl rfl)
        | vdict entries =>
            rw [parse_cite_opt] at h13
            rw [seq_ok_iff] at h13
            obtain ⟨hnames, h13⟩ := h13
            rw [seq_ok_iff] at h13
            obtain ⟨hbib, hpage⟩ := h13
            rw [check_field_names_ok_iff] at hnames
            refine Or.inr (Or.inr ⟨entries, rfl, ?_, ?_⟩)
            · intro p hp
              have := hnames p hp
              simp [CitationFields] at this
              rcases this with hh | hh <;> simp [CitationFields, DatesFields, hh]
            · intro hnd p hp
              have hpk := hnames p hp
              have hlp := lookup_of_mem_nodup hnd hp
              simp [CitationFields] at hpk
              rcases hpk with hpk | hpk
              · rw [hpk] at hlp
                unfold parse_string_field at hbib
                rw [hlp] at hbib
                exact parse_string_opt_some_ok hbib
              · rw [hpk] at hlp
                unfold parse_string_field at hpage
                rw [hlp] at hpage
                exact parse_string_opt_some_ok hpage
        | vstr s => simp [parse_cite_opt] at h13
        | vint n => simp [parse_cite_opt] at h13
        | vbool b => simp [parse_cite_opt] at h13
        | vlist xs => simp [parse_cite_opt] at h13
  · unfold parse_dates at h14
    cases hl : lookup z "dates" with
    | none => exact Or.inl rfl
    | some v =>
        rw [hl] at h14
        cases v with
        | vnull => exact Or.inr (Or.inl rfl)
        | vdict entries =>
            rw [parse_dates_opt] at h14
            rw [seq_ok_iff] at h14
            obtain ⟨hnames, h14⟩ := h14
            rw [seq_ok_iff] at h14
            obtain ⟨hyear, hera⟩ := h14
            rw [check_field_names_ok_iff] at hnames
            refine Or.inr (Or.inr ⟨entries, rfl, ?_, ?_⟩)
            · intro p hp
              have := hnames p hp
              simp [DatesFields] at this
              rcases this with hh | hh <;> simp [CitationFields, DatesFields, hh]
            · intro hnd p hp
              have hpk := hnames p hp
              have hlp := lookup_of_mem_nodup hnd hp
              simp [DatesFields] at hpk
              rcases hpk with hpk | hpk
              · rw [hpk] at hlp
                unfold parse_string_field at hyear
                rw [hlp] at hyear
                exact parse_string_opt_some_ok hyear
              · rw [hpk] at hlp
                unfold parse_string_field at hera
                rw [hlp] at hera
                exact parse_string_opt_some_ok hera
        | vstr s => simp [parse_dates_opt] at h14
        | vint n => simp [parse_dates_opt] at h14
        | vbool b => simp [parse_dates_opt] at h14
        | vlist xs => simp [parse_dates_opt] at h14

/-! ## The two passes of the batch pipeline as filtered folds -/

theorem foldlM_if_filter (g : Record → ZOp → Except PyError Record) (p : ZOp → Bool)
    (ops : List ZOp) (z : Record) :
    ops.foldlM (fun acc op => if p op then g acc op else .ok acc) z =
      (ops.filter p).foldlM g z := by
  induction ops generalizing z with
  | nil => rfl
  | cons op rest ih =>
      rw [List.foldlM_cons, List.filter_cons]
      by_cases h : p op
      · rw [if_pos h, if_pos h, List.foldlM_cons]
        cases hg : g z op with
        | ok z1 =>
            simp only [Bind.bind, Except.bind]
            exact ih z1
        | error e => simp only [Bind.bind, Except.bind]
      · rw [if_neg h, if_neg h]
        simp only [Bind.bind, Except.bind]
        exact ih z

theorem foldlM_skip_filter (g : Record → ZOp → Except PyError Record) (p : ZOp → Bool)
    (ops : List ZOp) (z : Record) :
    ops.foldlM (fun acc op => if p op then .ok acc else g acc op) z =
      (ops.filter (fun op => ¬ p op)).foldlM g z := by
  induction ops generalizing z with
  | nil => rfl
  | cons op rest ih =>
      rw [List.foldlM_cons, List.filter_cons]
      by_cases h : p op
      · rw [if_pos h]
        have hcond : (decide ¬ p op = true) = false := by simp [h]
        rw [hcond, if_neg Bool.false_ne_true]
        simp only [Bind.bind, Except.bind]
        exact ih z
      · rw [if_neg h]
        have hcond : (decide ¬ p op = true) = true := by simp [h]
        rw [hcond, if_pos rfl, List.foldlM_cons]
        cases hg : g z op with
        | ok z1 =>
            simp only [Bind.bind, Except.bind]
            exact ih z1
        | error e => simp only [Bind.bind, Except.bind]

theorem process_eq_two_passes (id : Int) (z : Record) (ops : List ZOp) :
    process_zettel_command_line_options id z ops =
      ((ops.filter ZOp.isDestructive).foldlM (fun acc op => applyZOp id acc op) z
        >>= fun z1 =>
       (ops.filter (fun op => ¬ ZOp.isDestructive op)).foldlM
         (fun acc op => applyZOp id acc op) z1) := by
  unfold process_zettel_command_line_options
  rw [foldlM_if_filter]
  cases hd : (ops.filter ZOp.isDestructive).foldlM (fun acc op => applyZOp id acc op) z with
  | ok z1 =>
      simp only [Bind.bind, Except.bind]
      exact foldlM_skip_filter _ _ _ _
  | error e => simp only [Bind.bind, Except.bind]

/-! ## Supporting lemmas for the flatten laws -/

theorem flatten_vstr_list (ss : List String) :
    flatten (.vlist (ss.map Value.vstr)) = .ok ss := by
  induction ss with
  | nil => simp [flatten]
  | cons s rest ih =>
      rw [List.map_cons, flatten]
      simp [flatten, ih]

theorem joinEntries_strs (es : List (String × String)) :
    joinEntries (es.map (fun p => (p.1, Value.vstr p.2))) =
      .ok (es.map (fun p => p.1 ++ ":" ++ p.2)) := by
  induction es with
  | nil => rfl
  | cons p rest ih => simp [joinEntries, ih]

theorem flatten_vdict_ok {entries : List (String × Value)} {joined : List String}
    (h : joinEntries entries = .ok joined) :
    flatten (.vdict entries) = flatten (.vlist (joined.map Value.vstr)) := by
  rw [flatten]
  split
  · rename_i joined1 heq
    rw [h] at heq
    cases heq
    rfl
  · rename_i e heq
    rw [h] at heq
    cases heq

/-! ## Claim theorems -/

/-- C9 — Flatten laws: `flatten(null) = [""]`; a string-valued mapping
flattens to its `"key:value"` strings in entry order; a list flattens to the
concatenation of the flattenings of its elements, in order; and every
non-null scalar flattens to the one-element list of its Python string
form. -/
theorem C9_flatten_laws :
    flatten .vnull = .ok [""] ∧
    (∀ es : List (String × String),
        flatten (.vdict (es.map (fun p => (p.1, Value.vstr p.2)))) =
          .ok (es.map (fun p => p.1 ++ ":" ++ p.2))) ∧
    (∀ xs : List Value,
        flatten (.vlist xs) = (xs.mapM flatten).map (fun ls => ls.flatten)) ∧
    (∀ s : String, flatten (.vstr s) = .ok [s]) ∧
    (∀ n : Int, flatten (.vint n) = .ok [toString n]) ∧
    (∀ b : Bool, flatten (.vbool b) = .ok [if b then "True" else "False"]) := by
  refine ⟨by simp [flatten], ?_, ?_, fun s => by simp [flatten],
    fun n => by simp [flatten], fun b => by simp [flatten]⟩
  · intro es
    rw [flatten_vdict_ok (joinEntries_strs es), flatten_vstr_list]
  · intro xs
    induction xs with
    | nil => rw [List.mapM_nil]; simp [flatten, Except.map, pure, Except.pure]
    | cons x rest ih =>
        rw [List.mapM_cons, flatten]
        cases hx : flatten x with
        | error e => simp [hx, Bind.bind, Except.bind, Except.map]
        | ok a =>
            cases hr : flatten (.vlist rest) with
            | error e =>
                rw [hr] at ih
                cases hm : rest.mapM flatten with
                | ok ls => rw [hm] at ih; simp [Except.map] at ih
                | error e1 =>
                    rw [hm] at ih
                    simp [Except.map] at ih
                    subst ih
                    simp [hx, hm, Bind.bind, Except.bind, Except.map]
            | ok b =>
                rw [hr] at ih
                cases hm : rest.mapM flatten with
                | error e1 => rw [hm] at ih; simp [Except.map] at ih
                | ok ls =>
                    rw [hm] at ih
                    simp [Except.map] at ih
                    simp [hx, hm, Bind.bind, Except.bind, Except.map, ih, pure, Except.pure]

/-- C10 — Empty-string guard on the structured sub-field setters:
`set_cite_bibkey`, `set_cite_page`, `set_dates_year` and `set_dates_era`
called with `""` return immediately, leaving every record unchanged and
running no validation. -/
theorem C10_empty_subfield_setters_noop (z : Record) :
    Zettel.set_cite_bibkey z "" = .ok (z, []) ∧
    Zettel.set_cite_page z "" = .ok (z, []) ∧
    Zettel.set_dates_year z "" = .ok (z, []) ∧
    Zettel.set_dates_era z "" = .ok (z, []) :=
  ⟨rfl, rfl, rfl, rfl⟩

/-- C7 (amended) — Null rejection vs. absence holds for every String-category
field (including `document`) and every StringList field: inserting the field
with a null value makes validation fail, while the empty mapping (all fields
absent) validates; but not for `cite`, `dates` or `filename` (see the
counterexample). -/
theorem C7_null_rejection_amended :
    (∀ (doc : Record) (f : String),
        f ∈ ZettelStringFields ++ ["document"] ++ ZettelListFields →
        parse_zettel (insertVal doc f .vnull) ≠ .ok ()) ∧
    parse_zettel [("tags", Value.vnull)] ≠ .ok () ∧
    parse_zettel [] = .ok () := by
  refine ⟨?_, by decide, by decide⟩
  intro doc f hf hok
  rw [parse_zettel_ok_iff] at hok
  obtain ⟨hck, h1, h2, h3, h4, h5, h6, h7, h8, h9, h10, h11, h12, h13, h14⟩ := hok
  simp [ZettelStringFields, ZettelListFields] at hf
  rcases hf with hf | hf | hf | hf | hf | hf | hf | hf | hf | hf | hf | hf
  · subst hf; rw [parse_string_field_insertVal, if_pos rfl] at h1
    simp [parse_string_opt] at h1
  · subst hf; rw [parse_string_field_insertVal, if_pos rfl] at h2
    simp [parse_string_opt] at h2
  · subst hf; rw [parse_string_field_insertVal, if_pos rfl] at h3
    simp [parse_string_opt] at h3
  · subst hf; rw [parse_string_field_insertVal, if_pos rfl] at h4
    simp [parse_string_opt] at h4
  · subst hf; rw [parse_string_field_insertVal, if_pos rfl] at h5
    simp [parse_string_opt] at h5
  · subst hf; rw [parse_string_field_insertVal, if_pos rfl] at h6
    simp [parse_string_opt] at h6
  · subst hf; rw [parse_string_field_insertVal, if_pos rfl] at h7
    simp [parse_string_opt] at h7
  · subst hf; rw [parse_string_field_insertVal, if_pos rfl] at h8
    simp [parse_string_opt] at h8
  · subst hf; rw [parse_string_field_insertVal, if_pos rfl] at h9
    simp [parse_string_opt] at h9
  · subst hf; rw [parse_string_field_insertVal, if_pos rfl] at h10
    simp [parse_string_opt] at h10
  · subst hf; rw [parse_list_field_insertVal, if_pos rfl] at h11
    simp [parse_list_opt] at h11
  · subst hf; rw [parse_list_field_insertVal, if_pos rfl] at h12
    simp [parse_list_opt] at h12

/-- Witness for C7: instantiating the amended claim at the `tags` field of
the empty record. -/
theorem C7_null_rejection_amended_witness :
    ("tags" ∈ ZettelStringFields ++ ["document"] ++ ZettelListFields) ∧
    parse_zettel (insertVal [] "tags" .vnull) ≠ .ok () :=
  ⟨by decide, C7_null_rejection_amended.1 [] "tags" (by decide)⟩

/-- Counterexample to C7 as stated: `cite` is a schema field, yet a mapping
in which `cite` is present with a null value passes validation (the
citation parser treats present-but-null like absent). -/
theorem C7_counterexample : parse_zettel [("cite", Value.vnull)] = .ok () := by
  decide

/-- C3 (amended) — Re-validation discipline as implemented: `set_field`,
`delete_field`, `reset_list_field`, `set_citation`, `set_dates` validate the
post-operation record exactly once before returning success, and
`load_field` validates it twice; the sub-field setters do so when their
argument is non-empty; `append_list_field` validates exactly when it
actually appends (an already-present value returns success without any
validation call); and `delete_list_field_entries` returns success without
ever calling the validator. -/
theorem C3_revalidation_amended :
    (∀ (z : Record) (name : String) (v : Value) (z1 : Record) (log : List Record),
        Zettel.set_field z name v = .ok (z1, log) →
        log = [z1] ∧ parse_zettel z1 = .ok ()) ∧
    (∀ (z : Record) (name : String) (z1 : Record) (log : List Record),
        Zettel.delete_field z name = .ok (z1, log) →
        log = [z1] ∧ parse_zettel z1 = .ok ()) ∧
    (∀ (z : Record) (name : String) (z1 : Record) (log : List Record),
        Zettel.reset_list_field z name = .ok (z1, log) →
        log = [z1] ∧ parse_zettel z1 = .ok ()) ∧
    (∀ (z : Record) (b : String) (p : Option String) (z1 : Record) (log : List Record),
        Zettel.set_citation z b p = .ok (z1, log) →
        log = [z1] ∧ parse_zettel z1 = .ok ()) ∧
    (∀ (z : Record) (y : String) (e : Option String) (z1 : Record) (log : List Record),
        Zettel.set_dates z y e = .ok (z1, log) →
        log = [z1] ∧ parse_zettel z1 = .ok ()) ∧
    (∀ (z : Record) (name text : String) (z1 : Record) (log : List Record),
        Zettel.load_field z name text = .ok (z1, log) →
        log = [z1, z1] ∧ parse_zettel z1 = .ok ()) ∧
    (∀ (z : Record) (name sub value : String) (z1 : Record) (log : List Record),
        value.length ≠ 0 →
        Zettel.set_structured_sub z name sub value = .ok (z1, log) →
        log = [z1] ∧ parse_zettel z1 = .ok ()) ∧
    (∀ (z : Record) (name : String) (v : Value) (z1 : Record) (log : List Record),
        Zettel.append_list_field z name v = .ok (z1, log) →
        (log = [z1] ∧ parse_zettel z1 = .ok ()) ∨ log = []) ∧
    (∀ (z : Record) (name : String) (positions : List Int) (z1 : Record)
        (log : List Record),
        Zettel.delete_list_field_entries z name positions = .ok (z1, log) →
        log = []) := by
  refine ⟨?_, ?_, ?_, ?_, ?_, ?_, ?_, ?_, ?_⟩
  · intro z name v z1 log h
    obtain ⟨hz, hl, hp⟩ := validated_ok h
    subst hz
    exact ⟨by simpa using hl, hp⟩
  · intro z name z1 log h
    obtain ⟨hz, hl, hp⟩ := validated_ok h
    subst hz
    exact ⟨by simpa using hl, hp⟩
  · intro z name z1 log h
    obtain ⟨hz, hl, hp⟩ := validated_ok h
    subst hz
    exact ⟨by simpa using hl, hp⟩
  · intro z b p z1 log h
    obtain ⟨hz, hl, hp⟩ := validated_ok h
    subst hz
    exact ⟨by simpa using hl, hp⟩
  · intro z y e z1 log h
    obtain ⟨hz, hl, hp⟩ := validated_ok h
    subst hz
    exact ⟨by simpa using hl, hp⟩
  · intro z name text z1 log h
    unfold Zettel.load_field at h
    cases hs : Zettel.set_field z name (.vstr text.trim) with
    | error e => rw [hs] at h; cases h
    | ok p =>
        obtain ⟨za, loga⟩ := p
        obtain ⟨hz, hl, hp⟩ := validated_ok hs
        subst hz
        rw [hs] at h
        simp only [hp, Except.ok.injEq, Prod.mk.injEq] at h
        obtain ⟨hz1, hlog⟩ := h
        subst hz1
        refine ⟨?_, hp⟩
        rw [← hlog, hl]
        rfl
  · intro z name sub value z1 log hv h
    unfold Zettel.set_structured_sub at h
    rw [if_neg hv] at h
    cases hlk : lookup z name with
    | none =>
        rw [hlk] at h
        obtain ⟨hz, hl, hp⟩ := validated_ok h
        subst hz
        exact ⟨by simpa using hl, hp⟩
    | some v =>
        rw [hlk] at h
        cases v with
        | vdict entries =>
            obtain ⟨hz, hl, hp⟩ := validated_ok h
            subst hz
            exact ⟨by simpa using hl, hp⟩
        | vnull => cases h
        | vstr s => cases h
        | vint n => cases h
        | vbool b => cases h
        | vlist xs => cases h
  · intro z name v z1 log h
    simp only [Zettel.append_list_field] at h
    repeat' split at h
    all_goals
      first
        | (simp only [Except.ok.injEq, Prod.mk.injEq] at h
           exact Or.inr h.2.symm)
        | (obtain ⟨hz, hl, hp⟩ := validated_ok h
           subst hz
           exact Or.inl ⟨by simpa using hl, hp⟩)
        | simp at h
  · intro z name positions z1 log h
    simp only [Zettel.delete_list_field_entries] at h
    repeat' split at h
    all_goals
      first
        | (simp only [Except.ok.injEq, Prod.mk.injEq] at h
           exact h.2.symm)
        | simp at h

/-- Witness for C3: concrete successful calls of each group —
`set_field` and `load_field` on the empty record validate the post state
(log `[z1]` resp. `[z1, z1]`), while a successful `delete_list_field_entries`
and an append of an already-present value return the empty validation log. -/
theorem C3_revalidation_amended_witness :
    (([([("title", Value.vstr "x")] : Record)] : List Record) =
        [[("title", Value.vstr "x")]] ∧
      parse_zettel [("title", Value.vstr "x")] = .ok ()) ∧
    (([] : List Record) = []) :=
  ⟨C3_revalidation_amended.1 [] "title" (.vstr "x") [("title", Value.vstr "x")]
      [[("title", Value.vstr "x")]] (by decide),
   C3_revalidation_amended.2.2.2.2.2.2.2.2 [("tags", .vlist [.vstr "a", .vstr "b"])]
      "tags" [0] [("tags", .vlist [.vstr "b"])] [] (by decide)⟩

/-- Counterexample to C3 as stated: a successful
`delete_list_field_entries` call whose validation log is empty — the
validator is never run on the post-operation state (the method body contains
no `parse_zettel` call). -/
theorem C3_counterexample :
    Zettel.delete_list_field_entries [("tags", .vlist [.vstr "a", .vstr "b"])]
        "tags" [0] =
      .ok ([("tags", .vlist [.vstr "b"])], []) := by
  decide

theorem pySetMem_unhashable {v : Value} (hv : Zettel.hashable v = false)
    {items : List Value} (h : ∀ x ∈ items, Zettel.hashable x = true) :
    Zettel.pySetMem v (.vlist items) = .error .typeError := by
  have e1 : Zettel.pySetMem v (.vlist items) =
      (if items.all Zettel.hashable = true then
        (if Zettel.hashable v = true then .ok (items.contains v)
         else .error .typeError)
       else .error .typeError) := rfl
  rw [e1, if_pos (List.all_eq_true.mpr h), if_neg (by simp [hv])]

/-- C4 (amended) — Error taxonomy as implemented: `set_field`,
`delete_field`, `reset_list_field`, `set_citation`, `set_dates` and
`load_field` can only fail with the repository's `ParseError`, on any input;
a sub-field setter can only fail with `ParseError` when the structured field
is absent or holds a dict; and `append_list_field` can only fail with
`ParseError` when the target field is absent or holds a list of hashable
values and the appended value is itself hashable — an unhashable appended
value (a list or a dict) instead raises `TypeError` from the membership
test's hashing.  `delete_list_field_entries` is exempt: it raises builtin
`IndexError`/`TypeError`/`KeyError` exceptions (see the counterexample). -/
theorem C4_error_kinds_amended :
    (∀ (z : Record) (name : String) (v : Value) (e : PyError),
        Zettel.set_field z name v = .error e → ∃ m, e = PyError.parseError m) ∧
    (∀ (z : Record) (name : String) (e : PyError),
        Zettel.delete_field z name = .error e → ∃ m, e = PyError.parseError m) ∧
    (∀ (z : Record) (name : String) (e : PyError),
        Zettel.reset_list_field z name = .error e → ∃ m, e = PyError.parseError m) ∧
    (∀ (z : Record) (b : String) (p : Option String) (e : PyError),
        Zettel.set_citation z b p = .error e → ∃ m, e = PyError.parseError m) ∧
    (∀ (z : Record) (y : String) (er : Option String) (e : PyError),
        Zettel.set_dates z y er = .error e → ∃ m, e = PyError.parseError m) ∧
    (∀ (z : Record) (name text : String) (e : PyError),
        Zettel.load_field z name text = .error e → ∃ m, e = PyError.parseError m) ∧
    (∀ (z : Record) (name sub value : String) (e : PyError),
        (lookup z name = none ∨ ∃ entries, lookup z name = some (.vdict entries)) →
        Zettel.set_structured_sub z name sub value = .error e →
        ∃ m, e = PyError.parseError m) ∧
    (∀ (z : Record) (name : String) (v : Value) (e : PyError),
        (lookup z name = none ∨
          ∃ items, lookup z name = some (.vlist items) ∧
            ∀ x ∈ items, Zettel.hashable x = true) →
        Zettel.hashable v = true →
        Zettel.append_list_field z name v = .error e →
        ∃ m, e = PyError.parseError m) ∧
    (∀ (z : Record) (name : String) (v : Value),
        (lookup z name = none ∨
          ∃ items, lookup z name = some (.vlist items) ∧
            ∀ x ∈ items, Zettel.hashable x = true) →
        Zettel.hashable v = false →
        Zettel.append_list_field z name v = .error .typeError) := by
  refine ⟨?_, ?_, ?_, ?_, ?_, ?_, ?_, ?_, ?_⟩
  · intro z name v e h
    exact validated_error h
  · intro z name e h
    exact validated_error h
  · intro z name e h
    exact validated_error h
  · intro z b p e h
    exact validated_error h
  · intro z y er e h
    exact validated_error h
  · intro z name text e h
    unfold Zettel.load_field at h
    cases hs : Zettel.set_field z name (.vstr text.trim) with
    | error e1 =>
        rw [hs] at h
        cases h
        exact validated_error hs
    | ok p =>
        obtain ⟨za, loga⟩ := p
        obtain ⟨hz, hl, hp⟩ := validated_ok hs
        subst hz
        rw [hs] at h
        simp only [hp] at h
        cases h
  · intro z name sub value e hshape h
    unfold Zettel.set_structured_sub at h
    by_cases hv : value.length = 0
    · rw [if_pos hv] at h
      cases h
    · rw [if_neg hv] at h
      rcases hshape with hn | ⟨entries, hn⟩ <;> rw [hn] at h
      · exact validated_error h
      · exact validated_error h
  · intro z name v e hshape hv h
    simp only [Zettel.append_list_field] at h
    rcases hshape with hn | ⟨items, hn, hhash⟩
    · rw [hn] at h
      simp only [Option.getD] at h
      cases hm : Zettel.pySetMem v (.vlist []) with
      | error e1 => simp [Zettel.pySetMem, hv] at hm
      | ok b =>
          rw [hm] at h
          cases b with
          | true => cases h
          | false => exact validated_error h
    · rw [hn] at h
      simp only [Option.getD] at h
      cases hm : Zettel.pySetMem v (.vlist items) with
      | error e1 =>
          simp only [Zettel.pySetMem] at hm
          rw [if_pos (List.all_eq_true.mpr hhash), if_pos hv] at hm
          cases hm
      | ok b =>
          rw [hm] at h
          cases b with
          | true => cases h
          | false => exact validated_error h
  · intro z name v hshape hv
    rcases hshape with hn | ⟨items, hn, hhash⟩
    · simp only [Zettel.append_list_field, hn, Option.getD]
      rw [pySetMem_unhashable hv (by intro x hx; cases hx)]
    · simp only [Zettel.append_list_field, hn, Option.getD]
      rw [pySetMem_unhashable hv hhash]

/-- Witness for C4: concrete erroring calls — `set_field` writing an integer
into `title` fails with a `ParseError`, and an append to a valid list field
whose post state is invalid would likewise only raise `ParseError` (here
instantiated through the `set_field` and sub-field-setter conjuncts). -/
theorem C4_error_kinds_amended_witness :
    (∃ m, (PyError.parseError
        "Field title must be a string or not present at all - found value 1 of type int")
      = PyError.parseError m) ∧
    (∃ m, (PyError.parseError
        "Field bibkey requires a string but found None of type NoneType")
      = PyError.parseError m) ∧
    Zettel.append_list_field [] "tags" (Value.vlist []) = .error .typeError := by
  refine ⟨?_, ?_, ?_⟩
  · exact C4_error_kinds_amended.1 [] "title" (.vint 1)
      (PyError.parseError
        "Field title must be a string or not present at all - found value 1 of type int")
      (by decide)
  · exact C4_error_kinds_amended.2.2.2.2.2.2.1 [("cite", .vdict [("bibkey", .vnull)])]
      "cite" "page" "5"
      (PyError.parseError
        "Field bibkey requires a string but found None of type NoneType")
      (Or.inr ⟨[("bibkey", Value.vnull)], by decide⟩) (by decide)
  · exact C4_error_kinds_amended.2.2.2.2.2.2.2.2 [] "tags" (Value.vlist [])
      (Or.inl rfl) rfl

/-- Counterexample to C4 as stated: `delete_list_field_entries` with an
out-of-range position fails with the builtin `IndexError`, which is not a
`ParseError` of any message. -/
theorem C4_counterexample :
    Zettel.delete_list_field_entries [("tags", .vlist [.vstr "a"])] "tags" [5]
        = .error .indexError ∧
    ∀ m, PyError.indexError ≠ PyError.parseError m :=
  ⟨by decide, fun _ h => PyError.noConfusion h⟩

/-! ## Helpers for the append claims -/

theorem fieldCheck_list_strs {n : String} (hn : n = "tags" ∨ n = "mentions")
    {items : List Value} (h : ∀ x ∈ items, ∃ s, x = Value.vstr s) :
    fieldCheck n (.vlist items) = .ok () := by
  rcases hn with hn | hn <;> subst hn
  · have e1 : fieldCheck "tags" (.vlist items) =
        parse_list_opt "tags" (some (.vlist items)) false := rfl
    rw [e1]
    simp only [parse_list_opt]
    rw [parse_list_items_ok_iff]
    exact h
  · have e1 : fieldCheck "mentions" (.vlist items) =
        parse_list_opt "mentions" (some (.vlist items)) false := rfl
    rw [e1]
    simp only [parse_list_opt]
    rw [parse_list_items_ok_iff]
    exact h

theorem hashable_of_strs {items : List Value} (h : ∀ x ∈ items, ∃ s, x = Value.vstr s) :
    ∀ x ∈ items, Zettel.hashable x = true := by
  intro x hx
  obtain ⟨s, hs⟩ := h x hx
  subst hs
  rfl

theorem pySetMem_hashable_list {items : List Value}
    (h : ∀ x ∈ items, Zettel.hashable x = true) (v : Value)
    (hv : Zettel.hashable v = true) :
    Zettel.pySetMem v (.vlist items) = .ok (items.contains v) := by
  have e1 : Zettel.pySetMem v (.vlist items) =
      (if items.all Zettel.hashable = true then
        (if Zettel.hashable v = true then .ok (items.contains v)
         else .error .typeError)
       else .error .typeError) := rfl
  rw [e1, if_pos (List.all_eq_true.mpr h), if_pos hv]

/-- C5 (amended) — Idempotent append with set-over-content semantics, for
every validated record whose current list holds the value at most once (in
particular any list built through appends): appending the value twice
produces a list containing it exactly once; and appending an
already-present value is a no-op that preserves the existing list and its
order unchanged. -/
theorem C5_idempotent_append_amended :
    (∀ (z : Record) (name value : String),
        parse_zettel z = .ok () →
        (name = "tags" ∨ name = "mentions") →
        (∀ items, lookup z name = some (.vlist items) →
            items.count (Value.vstr value) ≤ 1) →
        ∃ z1 log1 z2 log2 items2,
          Zettel.append_list_field z name (.vstr value) = .ok (z1, log1) ∧
          Zettel.append_list_field z1 name (.vstr value) = .ok (z2, log2) ∧
          lookup z2 name = some (.vlist items2) ∧
          items2.count (Value.vstr value) = 1) ∧
    (∀ (z : Record) (name : String) (v : Value) (items : List Value),
        lookup z name = some (.vlist items) →
        (∀ x ∈ items, Zettel.hashable x = true) →
        v ∈ items →
        Zettel.append_list_field z name v = .ok (insertVal z name (.vlist items), []) ∧
        lookup (insertVal z name (.vlist items)) name = some (.vlist items)) := by
  constructor
  · intro z name value hz hn hcount
    have hmemF : name ∈ ZettelFieldsOrdered := by
      rcases hn with h | h <;> subst h <;> decide
    rcases valid_list_field hz hn with hnone | ⟨items, hl, hstrs⟩
    · -- the field is absent: the first append creates ["value"]
      have hpm : Zettel.pySetMem (.vstr value) (.vlist []) = .ok false := rfl
      have hz0 : parse_zettel (insertVal z name (.vlist [])) = .ok () :=
        parse_zettel_insertVal_ok hz hmemF (fieldCheck_list_strs hn (by simp))
      have hz1 : parse_zettel
          (insertVal (insertVal z name (.vlist [])) name (.vlist [.vstr value]))
            = .ok () := by
        refine parse_zettel_insertVal_ok hz0 hmemF (fieldCheck_list_strs hn ?_)
        intro x hx
        simp at hx
        exact ⟨value, hx⟩
      have h1ok : Zettel.append_list_field z name (.vstr value) =
          .ok (insertVal (insertVal z name (.vlist [])) name (.vlist [.vstr value]),
               [insertVal (insertVal z name (.vlist [])) name (.vlist [.vstr value])]) := by
        simp only [Zettel.append_list_field, hnone, Option.getD, hpm]
        unfold Zettel.validated
        rw [show ([] : List Value) ++ [Value.vstr value] = [Value.vstr value] from rfl, hz1]
        rfl
      have hl1 : lookup (insertVal (insertVal z name (.vlist [])) name
          (.vlist [.vstr value])) name = some (.vlist [.vstr value]) := by
        rw [lookup_insertVal]
        simp
      have hpm2 : Zettel.pySetMem (.vstr value) (.vlist [.vstr value]) = .ok true := by
        rw [pySetMem_hashable_list (by intro x hx; simp at hx; subst hx; rfl) (Value.vstr value) rfl]
        simp
      have h2ok : Zettel.append_list_field (insertVal (insertVal z name (.vlist []))
          name (.vlist [.vstr value])) name (.vstr value) =
          .ok (insertVal (insertVal (insertVal z name (.vlist [])) name
                 (.vlist [.vstr value])) name (.vlist [.vstr value]), []) := by
        simp only [Zettel.append_list_field, hl1, Option.getD, hpm2]
      refine ⟨_, _, _, _, [.vstr value], h1ok, h2ok, ?_, by simp⟩
      rw [lookup_insertVal]
      simp
    · -- the field holds a validated list of strings
      have hhash := hashable_of_strs hstrs
      have hcnt := hcount items hl
      by_cases hmem : Value.vstr value ∈ items
      · -- already present: both appends are no-ops
        have hpm : Zettel.pySetMem (.vstr value) (.vlist items) = .ok true := by
          rw [pySetMem_hashable_list hhash (Value.vstr value) rfl]
          simp [hmem]
        have h1ok : Zettel.append_list_field z name (.vstr value) =
            .ok (insertVal z name (.vlist items), []) := by
          simp only [Zettel.append_list_field, hl, Option.getD, hpm]
        have hl1 : lookup (insertVal z name (.vlist items)) name =
            some (.vlist items) := by
          rw [lookup_insertVal]
          simp
        have h2ok : Zettel.append_list_field (insertVal z name (.vlist items)) name
            (.vstr value) =
            .ok (insertVal (insertVal z name (.vlist items)) name (.vlist items), []) := by
          simp only [Zettel.append_list_field, hl1, Option.getD, hpm]
        refine ⟨_, _, _, _, items, h1ok, h2ok, ?_, ?_⟩
        · rw [lookup_insertVal]
          simp
        · have hpos : 0 < items.count (Value.vstr value) := List.count_pos_iff.mpr hmem
          omega
      · -- not present: the first append adds the value, the second is a no-op
        have hpm : Zettel.pySetMem (.vstr value) (.vlist items) = .ok false := by
          rw [pySetMem_hashable_list hhash (Value.vstr value) rfl]
          simp [hmem]
        have hz0 : parse_zettel (insertVal z name (.vlist items)) = .ok () :=
          parse_zettel_insertVal_ok hz hmemF (fieldCheck_list_strs hn hstrs)
        have hstrs1 : ∀ x ∈ items ++ [Value.vstr value], ∃ s, x = Value.vstr s := by
          intro x hx
          rcases List.mem_append.mp hx with hx | hx
          · exact hstrs x hx
          · simp at hx
            exact ⟨value, hx⟩
        have hz1 : parse_zettel (insertVal (insertVal z name (.vlist items)) name
            (.vlist (items ++ [.vstr value]))) = .ok () :=
          parse_zettel_insertVal_ok hz0 hmemF (fieldCheck_list_strs hn hstrs1)
        have h1ok : Zettel.append_list_field z name (.vstr value) =
            .ok (insertVal (insertVal z name (.vlist items)) name
                   (.vlist (items ++ [.vstr value])),
                 [insertVal (insertVal z name (.vlist items)) name
                   (.vlist (items ++ [.vstr value]))]) := by
          simp only [Zettel.append_list_field, hl, Option.getD, hpm]
          unfold Zettel.validated
          rw [hz1]
          rfl
        have hl1 : lookup (insertVal (insertVal z name (.vlist items)) name
            (.vlist (items ++ [.vstr value]))) name =
            some (.vlist (items ++ [.vstr value])) := by
          rw [lookup_insertVal]
          simp
        have hpm2 : Zettel.pySetMem (.vstr value) (.vlist (items ++ [.vstr value])) =
            .ok true := by
          rw [pySetMem_hashable_list (hashable_of_strs hstrs1) (Value.vstr value) rfl]
          simp
        have h2ok : Zettel.append_list_field (insertVal (insertVal z name
            (.vlist items)) name (.vlist (items ++ [.vstr value]))) name
            (.vstr value) =
            .ok (insertVal (insertVal (insertVal z name (.vlist items)) name
                   (.vlist (items ++ [.vstr value]))) name
                   (.vlist (items ++ [.vstr value])), []) := by
          simp only [Zettel.append_list_field, hl1, Option.getD, hpm2]
        refine ⟨_, _, _, _, items ++ [.vstr value], h1ok, h2ok, ?_, ?_⟩
        · rw [lookup_insertVal]
          simp
        · rw [List.count_append]
          rw [List.count_eq_zero.mpr hmem]
          simp
  · intro z name v items hl hhash hmem
    have hpm : Zettel.pySetMem v (.vlist items) = .ok true := by
      rw [pySetMem_hashable_list hhash v (hhash v hmem)]
      simp [hmem]
    constructor
    · simp only [Zettel.append_list_field, hl, Option.getD, hpm]
    · rw [lookup_insertVal]
      simp

/-- Witness for C5: appending `"a"` twice to the tags of the empty record
yields tags `["a"]` containing `"a"` exactly once; and appending `"b"` to a
record whose tags are `["b"]` is a no-op. -/
theorem C5_idempotent_append_amended_witness :
    (∃ z1 log1 z2 log2 items2,
        Zettel.append_list_field [] "tags" (.vstr "a") = .ok (z1, log1) ∧
        Zettel.append_list_field z1 "tags" (.vstr "a") = .ok (z2, log2) ∧
        lookup z2 "tags" = some (.vlist items2) ∧
        items2.count (Value.vstr "a") = 1) ∧
    (Zettel.append_list_field [("tags", .vlist [.vstr "b"])] "tags" (.vstr "b") =
        .ok (insertVal [("tags", .vlist [.vstr "b"])] "tags" (.vlist [.vstr "b"]), []) ∧
      lookup (insertVal [("tags", .vlist [.vstr "b"])] "tags" (.vlist [.vstr "b"]))
          "tags" = some (.vlist [.vstr "b"])) :=
  ⟨C5_idempotent_append_amended.1 [] "tags" "a" (by decide) (Or.inl rfl)
      (by intro items h; cases h),
   C5_idempotent_append_amended.2 [("tags", .vlist [.vstr "b"])] "tags" (.vstr "b")
      [.vstr "b"] (by decide) (by decide) (by decide)⟩

/-- Counterexample to C5 as stated: a validated record can already hold
duplicate tags (`["a", "a"]` passes validation); appending `"a"` twice is
then a no-op both times, and the final list contains `"a"` twice, not
exactly once. -/
theorem C5_counterexample :
    parse_zettel [("tags", .vlist [.vstr "a", .vstr "a"])] = .ok () ∧
    Zettel.append_list_field [("tags", .vlist [.vstr "a", .vstr "a"])] "tags"
        (.vstr "a") =
      .ok ([("tags", .vlist [.vstr "a", .vstr "a"])], []) ∧
    [Value.vstr "a", Value.vstr "a"].count (Value.vstr "a") = 2 := by
  refine ⟨by decide, by decide, by decide⟩

/-- C6 — Guarded sub-field edit: on a validated record without a `cite`
field, `set_cite_bibkey("x")` is a deliberate no-op (the record is returned
unchanged and no error is raised, the trailing re-validation still runs);
and `set_citation("k1","5")` followed by `set_cite_bibkey("k2")` yields
`cite = {bibkey: "k2", page: "5"}` — the page sub-field is preserved while
only bibkey is updated. -/
theorem C6_guarded_subfield_edit (z : Record) (h : parse_zettel z = .ok ()) :
    (lookup z "cite" = none → Zettel.set_cite_bibkey z "x" = .ok (z, [z])) ∧
    (∃ z1 z2,
        Zettel.set_citation z "k1" (some "5") = .ok (z1, [z1]) ∧
        Zettel.set_cite_bibkey z1 "k2" = .ok (z2, [z2]) ∧
        lookup z2 "cite" =
          some (.vdict [("bibkey", .vstr "k2"), ("page", .vstr "5")])) := by
  constructor
  · intro hnone
    unfold Zettel.set_cite_bibkey Zettel.set_structured_sub
    rw [if_neg (by decide), hnone]
    unfold Zettel.validated
    rw [h]
    rfl
  · have hz1 : parse_zettel (insertVal z "cite"
        (.vdict [("bibkey", .vstr "k1"), ("page", .vstr "5")])) = .ok () :=
      parse_zettel_insertVal_ok h (by decide) (by decide)
    have h1ok : Zettel.set_citation z "k1" (some "5") =
        .ok (insertVal z "cite" (.vdict [("bibkey", .vstr "k1"), ("page", .vstr "5")]),
             [insertVal z "cite" (.vdict [("bibkey", .vstr "k1"), ("page", .vstr "5")])]) := by
      unfold Zettel.set_citation
      show Zettel.validated (insertVal z "cite"
          (.vdict [("bibkey", .vstr "k1"), ("page", .vstr "5")])) [] = _
      unfold Zettel.validated
      rw [hz1]
      rfl
    have hl1 : lookup (insertVal z "cite"
        (.vdict [("bibkey", .vstr "k1"), ("page", .vstr "5")])) "cite" =
        some (.vdict [("bibkey", .vstr "k1"), ("page", .vstr "5")]) := by
      rw [lookup_insertVal]
      simp
    have hz2 : parse_zettel (insertVal (insertVal z "cite"
        (.vdict [("bibkey", .vstr "k1"), ("page", .vstr "5")])) "cite"
        (.vdict [("bibkey", .vstr "k2"), ("page", .vstr "5")])) = .ok () :=
      parse_zettel_insertVal_ok hz1 (by decide) (by decide)
    have h2ok : Zettel.set_cite_bibkey (insertVal z "cite"
        (.vdict [("bibkey", .vstr "k1"), ("page", .vstr "5")])) "k2" =
        .ok (insertVal (insertVal z "cite"
               (.vdict [("bibkey", .vstr "k1"), ("page", .vstr "5")])) "cite"
               (.vdict [("bibkey", .vstr "k2"), ("page", .vstr "5")]),
             [insertVal (insertVal z "cite"
               (.vdict [("bibkey", .vstr "k1"), ("page", .vstr "5")])) "cite"
               (.vdict [("bibkey", .vstr "k2"), ("page", .vstr "5")])]) := by
      unfold Zettel.set_cite_bibkey Zettel.set_structured_sub
      rw [if_neg (by decide), hl1]
      show Zettel.validated (insertVal (insertVal z "cite"
          (.vdict [("bibkey", .vstr "k1"), ("page", .vstr "5")])) "cite"
          (.vdict [("bibkey", .vstr "k2"), ("page", .vstr "5")])) [] = _
      unfold Zettel.validated
      rw [hz2]
      rfl
    refine ⟨_, _, h1ok, h2ok, ?_⟩
    rw [lookup_insertVal]
    simp

/-- Witness for C6: instantiating the guarded sub-field edit at the empty
record. -/
theorem C6_guarded_subfield_edit_witness :
    Zettel.set_cite_bibkey [] "x" = .ok ([], [([] : Record)]) :=
  (C6_guarded_subfield_edit [] (by decide)).1 (by decide)

/-- C1 — Batch order independence: the engine's two fixed passes make the
outcome depend only on the destructive request subsequence and the additive
request subsequence, not on how the caller interleaved them; in particular,
on every validated record, the batches `[append("tags","a"),
delete("tags")]` and `[delete("tags"), append("tags","a")]` produce the same
record, whose `tags` is exactly `["a"]`. -/
theorem C1_batch_order_independence :
    (∀ (id : Int) (z : Record) (ops1 ops2 : List ZOp),
        ops1.filter ZOp.isDestructive = ops2.filter ZOp.isDestructive →
        ops1.filter (fun op => ¬ ZOp.isDestructive op) =
          ops2.filter (fun op => ¬ ZOp.isDestructive op) →
        process_zettel_command_line_options id z ops1 =
          process_zettel_command_line_options id z ops2) ∧
    (∀ (id : Int) (z : Record), parse_zettel z = .ok () →
        ∃ z2,
          process_zettel_command_line_options id z
              [ZOp.appendList "tags" ["a"], ZOp.deleteField "tags"] = .ok z2 ∧
          process_zettel_command_line_options id z
              [ZOp.deleteField "tags", ZOp.appendList "tags" ["a"]] = .ok z2 ∧
          lookup z2 "tags" = some (.vlist [.vstr "a"])) := by
  have parta : ∀ (id : Int) (z : Record) (ops1 ops2 : List ZOp),
      ops1.filter ZOp.isDestructive = ops2.filter ZOp.isDestructive →
      ops1.filter (fun op => ¬ ZOp.isDestructive op) =
        ops2.filter (fun op => ¬ ZOp.isDestructive op) →
      process_zettel_command_line_options id z ops1 =
        process_zettel_command_line_options id z ops2 := by
    intro id z ops1 ops2 hd ha
    rw [process_eq_two_passes, process_eq_two_passes, hd, ha]
  refine ⟨parta, ?_⟩
  intro id z hz
  have hz1 : parse_zettel (eraseKey z "tags") = .ok () := parse_zettel_eraseKey hz "tags"
  have hl1 : lookup (eraseKey z "tags") "tags" = none := by
    rw [lookup_eraseKey, if_pos rfl]
  have hz0 : parse_zettel (insertVal (eraseKey z "tags") "tags" (.vlist [])) = .ok () :=
    parse_zettel_insertVal_ok hz1 (by decide) (by decide)
  have hz2 : parse_zettel (insertVal (insertVal (eraseKey z "tags") "tags" (.vlist []))
      "tags" (.vlist [.vstr "a"])) = .ok () :=
    parse_zettel_insertVal_ok hz0 (by decide) (by decide)
  have hdel : applyZOp id z (ZOp.deleteField "tags") = .ok (eraseKey z "tags") := by
    simp only [applyZOp, runM, Zettel.delete_field]
    unfold Zettel.validated
    rw [hz1]
    rfl
  have happ : applyZOp id (eraseKey z "tags") (ZOp.appendList "tags" ["a"]) =
      .ok (insertVal (insertVal (eraseKey z "tags") "tags" (.vlist []))
             "tags" (.vlist [.vstr "a"])) := by
    simp only [applyZOp]
    rw [List.foldlM_cons]
    have hone : runM (Zettel.append_list_field (eraseKey z "tags") "tags"
        (.vstr "a")) =
        .ok (insertVal (insertVal (eraseKey z "tags") "tags" (.vlist []))
               "tags" (.vlist [.vstr "a"])) := by
      have hpm : Zettel.pySetMem (.vstr "a") (.vlist []) = .ok false := rfl
      have e1 : Zettel.append_list_field (eraseKey z "tags") "tags" (.vstr "a") =
          .ok (insertVal (insertVal (eraseKey z "tags") "tags" (.vlist []))
                 "tags" (.vlist [.vstr "a"]),
               [insertVal (insertVal (eraseKey z "tags") "tags" (.vlist []))
                 "tags" (.vlist [.vstr "a"])]) := by
        simp only [Zettel.append_list_field, hl1, Option.getD, hpm]
        unfold Zettel.validated
        rw [show ([] : List Value) ++ [Value.vstr "a"] = [Value.vstr "a"] from rfl, hz2]
        rfl
      rw [runM, e1]
      rfl
    rw [hone]
    rfl
  refine ⟨insertVal (insertVal (eraseKey z "tags") "tags" (.vlist []))
      "tags" (.vlist [.vstr "a"]), ?_, ?_, ?_⟩
  · rw [parta id z [ZOp.appendList "tags" ["a"], ZOp.deleteField "tags"]
        [ZOp.deleteField "tags", ZOp.appendList "tags" ["a"]] (by decide) (by decide)]
    rw [process_eq_two_passes]
    rw [show ([ZOp.deleteField "tags", ZOp.appendList "tags" ["a"]].filter
        ZOp.isDestructive) = [ZOp.deleteField "tags"] from rfl]
    rw [show ([ZOp.deleteField "tags", ZOp.appendList "tags" ["a"]].filter
        (fun op => ¬ ZOp.isDestructive op)) = [ZOp.appendList "tags" ["a"]] from by decide]
    rw [List.foldlM_cons, hdel]
    show List.foldlM _ _ _ >>= _ = _
    rw [show List.foldlM (fun acc op => applyZOp id acc op) (eraseKey z "tags") [] =
        pure (eraseKey z "tags") from rfl]
    show List.foldlM _ _ _ = _
    rw [List.foldlM_cons, happ]
    rfl
  · rw [process_eq_two_passes]
    rw [show ([ZOp.deleteField "tags", ZOp.appendList "tags" ["a"]].filter
        ZOp.isDestructive) = [ZOp.deleteField "tags"] from rfl]
    rw [show ([ZOp.deleteField "tags", ZOp.appendList "tags" ["a"]].filter
        (fun op => ¬ ZOp.isDestructive op)) = [ZOp.appendList "tags" ["a"]] from by decide]
    rw [List.foldlM_cons, hdel]
    show List.foldlM _ _ _ >>= _ = _
    rw [show List.foldlM (fun acc op => applyZOp id acc op) (eraseKey z "tags") [] =
        pure (eraseKey z "tags") from rfl]
    show List.foldlM _ _ _ = _
    rw [List.foldlM_cons, happ]
    rfl
  · rw [lookup_insertVal]
    simp

/-- Witness for C1: the two concrete batches applied to the empty record by
the two-pass engine both produce a record whose `tags` is `["a"]`. -/
theorem C1_batch_order_independence_witness :
    ∃ z2,
      process_zettel_command_line_options 0 []
          [ZOp.appendList "tags" ["a"], ZOp.deleteField "tags"] = .ok z2 ∧
      process_zettel_command_line_options 0 []
          [ZOp.deleteField "tags", ZOp.appendList "tags" ["a"]] = .ok z2 ∧
      lookup z2 "tags" = some (.vlist [.vstr "a"]) :=
  C1_batch_order_independence.2 0 [] (by decide)

/-! ## Serializer emission lemmas -/

theorem emit_entry_key {z : Record} {restrict : List String} {k : String}
    {e : String × Value} (h : emit_entry z restrict k = some e) : e.1 = k := by
  unfold emit_entry at h
  cases hl : lookup z k with
  | none => rw [hl, Option.none_bind] at h; cases h
  | some v =>
      rw [hl, Option.some_bind] at h
      by_cases hr : k ∈ restrict
      · rw [if_pos hr] at h
        by_cases hs : k ∈ ZettelStringFields
        · rw [if_pos hs] at h
          cases h
          rfl
        · rw [if_neg hs] at h
          by_cases hd : k = "document"
          · rw [if_pos hd] at h
            cases h
          · rw [if_neg hd] at h
            rw [Option.map_eq_some'] at h
            obtain ⟨v1, hv1, he⟩ := h
            rw [← he]
      · rw [if_neg hr] at h
        cases h

theorem filterMap_keys_eq_filter (L : List String) (z : Record)
    (restrict : List String) :
    (L.filterMap (emit_entry z restrict)).map Prod.fst =
      L.filter (fun k => (emit_entry z restrict k).isSome) := by
  induction L with
  | nil => rfl
  | cons k rest ih =>
      rw [List.filterMap_cons, List.filter_cons]
      cases he : emit_entry z restrict k with
      | none => simpa [he] using ih
      | some e =>
          rw [List.map_cons, ih]
          simp [he, emit_entry_key he]

theorem string_fields_ne_document : ∀ k ∈ ZettelStringFields, k ≠ "document" := by
  decide

theorem emit_entry_isSome (z : Record) (restrict : List String) (k : String) :
    (emit_entry z restrict k).isSome = true ↔
      (containsKey z k = true ∧ k ∈ restrict ∧ k ≠ "document" ∧
        (k ∈ ZettelStringFields ∨ (∃ items, lookup z k = some (.vlist items)) ∨
          (∃ entries, lookup z k = some (.vdict entries)))) := by
  unfold emit_entry containsKey
  cases hl : lookup z k with
  | none => rw [Option.none_bind]; simp
  | some v =>
      rw [Option.some_bind]
      by_cases hr : k ∈ restrict
      · rw [if_pos hr]
        by_cases hs : k ∈ ZettelStringFields
        · rw [if_pos hs]
          simp [hr, hs, string_fields_ne_document k hs]
        · rw [if_neg hs]
          by_cases hd : k = "document"
          · rw [if_pos hd]
            simp [hd]
          · rw [if_neg hd]
            cases v with
            | vlist items => simp [hr, hd, hs, copyValue]
            | vdict entries => simp [hr, hd, hs, copyValue]
            | vnull => simp [hr, hd, hs, copyValue]
            | vstr s => simp [hr, hd, hs, copyValue]
            | vint n => simp [hr, hd, hs, copyValue]
            | vbool b => simp [hr, hd, hs, copyValue]
      · rw [if_neg hr]
        simp [hr]

theorem yaml_dump_ne_empty {m : List (String × Value)} (hm : m ≠ []) :
    yaml_dump m ≠ "" := by
  cases m with
  | nil => exact absurd rfl hm
  | cons p rest =>
      unfold yaml_dump
      intro hcontra
      have hdata : ((p :: rest).map
          (fun q => q.1.data ++ ':' :: encValue q.2 ++ ['\n'])).flatten = [] := by
        have := congrArg String.data hcontra
        simpa using this
      rw [List.map_cons, List.flatten_cons] at hdata
      have hlen := congrArg List.length hdata
      simp at hlen

/-- C8 (amended) — Serializer emission rule as implemented: `get_yaml` walks
the canonical field order and emits exactly the fields that are present in
the record, included in `restrict_to_fields`, not `document`, and either
String-category or holding a value with a `.copy` method (a list or dict);
a present non-String field holding anything else — in practice `filename`,
whose string value has no `.copy`, or a present-but-null `cite`/`dates` —
is dropped with a warning.  When no field qualifies the result is the empty
string, and when some field qualifies the result is non-empty. -/
theorem C8_serializer_emission_amended (z : Record) (restrict : List String)
    (h : parse_zettel z = .ok ()) :
    ((get_yaml_mapping z restrict).map Prod.fst =
        ZettelFieldsOrdered.filter (fun k => (emit_entry z restrict k).isSome)) ∧
    (∀ k : String,
        (emit_entry z restrict k).isSome = true ↔
          (containsKey z k = true ∧ k ∈ restrict ∧ k ≠ "document" ∧
            (k ∈ ZettelStringFields ∨ (∃ items, lookup z k = some (.vlist items)) ∨
              (∃ entries, lookup z k = some (.vdict entries))))) ∧
    (get_yaml_mapping z restrict = [] → Zettel.get_yaml z restrict = .ok "") ∧
    (get_yaml_mapping z restrict ≠ [] →
        ∃ s, Zettel.get_yaml z restrict = .ok s ∧ s ≠ "") := by
  refine ⟨filterMap_keys_eq_filter _ _ _, emit_entry_isSome z restrict, ?_, ?_⟩
  · intro hempty
    unfold Zettel.get_yaml
    rw [h, hempty]
    rfl
  · intro hne
    unfold Zettel.get_yaml
    rw [h]
    have hlen : (get_yaml_mapping z restrict).length > 0 :=
      List.length_pos.mpr hne
    rw [if_pos hlen]
    exact ⟨_, rfl, yaml_dump_ne_empty hne⟩

/-- Witness for C8: on the validated record `{title: "t", filename: "f"}`
with no restriction, the emitted keys are exactly `["title"]` (the
`filename` string has no `.copy` and is dropped), and the YAML text is
non-empty. -/
theorem C8_serializer_emission_amended_witness :
    ((get_yaml_mapping [("title", .vstr "t"), ("filename", .vstr "f")]
        ZettelFieldsOrdered).map Prod.fst =
      ZettelFieldsOrdered.filter (fun k =>
        (emit_entry [("title", .vstr "t"), ("filename", .vstr "f")]
          ZettelFieldsOrdered k).isSome)) ∧
    (∃ s, Zettel.get_yaml [("title", .vstr "t"), ("filename", .vstr "f")]
        ZettelFieldsOrdered = .ok s ∧ s ≠ "") :=
  ⟨(C8_serializer_emission_amended [("title", .vstr "t"), ("filename", .vstr "f")]
      ZettelFieldsOrdered (by decide)).1,
   (C8_serializer_emission_amended [("title", .vstr "t"), ("filename", .vstr "f")]
      ZettelFieldsOrdered (by decide)).2.2.2 (by decide)⟩

/-- Counterexample to C8 as stated: `filename` is present in the record and
included in the restriction, and is not `document`, yet nothing is emitted —
`get_yaml` returns the empty string because the string value has no
`.copy`. -/
theorem C8_counterexample :
    containsKey [("filename", Value.vstr "f")] "filename" = true ∧
    "filename" ∈ ZettelFieldsOrdered ∧
    "filename" ≠ "document" ∧
    "filename" ∈ ZettelFieldsOrdered ∧
    get_yaml_mapping [("filename", Value.vstr "f")] ZettelFieldsOrdered = [] ∧
    Zettel.get_yaml [("filename", Value.vstr "f")] ZettelFieldsOrdered = .ok "" := by
  refine ⟨by decide, by decide, by decide, by decide, by decide, by decide⟩

/-! ## C2: the YAML round-trip

Helper predicates used to state the round-trip hypotheses in a decidable
form, and the inverse lemmas for the modelled codec. -/

/-- The string carried by a `vstr` value (and `""` on any other shape). -/
def unVStr : Value → String
  | Value.vstr s => s
  | _ => ""

/-- A looked-up value that is either absent or a string (the only shapes
`filename` takes in practice). -/
def isStrOrAbsent : Option Value → Bool
  | none => true
  | some (Value.vstr _) => true
  | _ => false

/-- A value whose sub-keys, if it is a dict, are pairwise distinct. -/
def subkeysNodup : Value → Bool
  | Value.vdict entries => decide ((entries.map Prod.fst).Nodup)
  | _ => true

theorem strMk_data (s : String) : String.mk s.data = s := rfl

theorem escChar_no_sep (x c : Char) (hc : c ∈ escChar x) :
    ¬ c = '\n' ∧ ¬ c = '\t' := by
  unfold escChar at hc
  by_cases h1 : x = '\\'
  · rw [if_pos h1] at hc
    simp at hc
    subst hc
    exact ⟨by decide, by decide⟩
  · rw [if_neg h1] at hc
    by_cases h2 : x = '\n'
    · rw [if_pos h2] at hc
      simp at hc
      rcases hc with hc | hc <;> subst hc <;> exact ⟨by decide, by decide⟩
    · rw [if_neg h2] at hc
      by_cases h3 : x = '\t'
      · rw [if_pos h3] at hc
        simp at hc
        rcases hc with hc | hc <;> subst hc <;> exact ⟨by decide, by decide⟩
      · rw [if_neg h3] at hc
        simp at hc
        subst hc
        exact ⟨h2, h3⟩

theorem esc_no_sep (cs : List Char) : ∀ c ∈ esc cs, ¬ c = '\n' ∧ ¬ c = '\t' := by
  induction cs with
  | nil => intro c hc; simp [esc] at hc
  | cons x rest ih =>
      intro c hc
      rw [esc] at hc
      rcases List.mem_append.mp hc with hc | hc
      · exact escChar_no_sep x c hc
      · exact ih c hc

theorem unesc_esc (cs : List Char) : unesc (esc cs) = some cs := by
  induction cs with
  | nil => rfl
  | cons c rest ih =>
      by_cases h1 : c = '\\'
      · subst h1; simp [esc, escChar, unesc, ih]
      · by_cases h2 : c = '\n'
        · subst h2; simp [esc, escChar, unesc, ih]
        · by_cases h3 : c = '\t'
          · subst h3; simp [esc, escChar, unesc, ih]
          · have he : esc (c :: rest) = c :: esc rest := by
              simp [esc, escChar, h1, h2, h3]
            rw [he, unesc.eq_def]
            simp [h1, ih]

theorem splitSeq_append (sep : Char) (chunk tail : List Char)
    (ls : List (List Char)) (hch : ∀ c ∈ chunk, ¬ c = sep)
    (htl : splitSeq sep tail = some ls) :
    splitSeq sep (chunk ++ sep :: tail) = some (chunk :: ls) := by
  induction chunk with
  | nil => simp [splitSeq, htl]
  | cons c ch ih =>
      have hc : ¬ c = sep := hch c (by simp)
      have ih2 := ih (fun x hx => hch x (by simp [hx]))
      simp [splitSeq, hc, ih2]

theorem splitSeq_encode (sep : Char) (chunks : List (List Char))
    (h : ∀ ch ∈ chunks, ∀ c ∈ ch, ¬ c = sep) :
    splitSeq sep ((chunks.map (fun ch => ch ++ [sep])).flatten) = some chunks := by
  induction chunks with
  | nil => rfl
  | cons ch rest ih =>
      have e : (((ch :: rest).map (fun ch => ch ++ [sep])).flatten : List Char)
          = ch ++ sep :: ((rest.map (fun ch => ch ++ [sep])).flatten) := by
        simp [List.flatten_cons, List.append_assoc]
      rw [e]
      exact splitSeq_append sep ch _ _ (h ch (by simp))
        (ih (fun ch2 h2 => h ch2 (by simp [h2])))

theorem mapM_unesc_esc (ss : List (List Char)) :
    (ss.map esc).mapM unesc = some ss := by
  induction ss with
  | nil => rfl
  | cons s rest ih =>
      rw [List.map_cons, List.mapM_cons, unesc_esc]
      show ((List.map esc rest).mapM unesc).bind (fun bs => some (s :: bs))
          = some (s :: rest)
      rw [ih]
      rfl

theorem takeWhile_append_strict (pr : Char → Bool) (xs : List Char) (y : Char)
    (ys : List Char) (hxs : ∀ c ∈ xs, pr c = true) (hy : pr y = false) :
    (xs ++ y :: ys).takeWhile pr = xs ∧ (xs ++ y :: ys).dropWhile pr = y :: ys := by
  induction xs with
  | nil => simp [List.takeWhile_cons, List.dropWhile_cons, hy]
  | cons x rest ih =>
      have hx := hxs x (by simp)
      obtain ⟨h1, h2⟩ := ih (fun c hc => hxs c (by simp [hc]))
      simp [List.takeWhile_cons, List.dropWhile_cons, hx, h1, h2]

theorem decValue_enc_str (s : String) :
    decValue (encValue (Value.vstr s)) = some (Value.vstr s) := by
  have he : encValue (Value.vstr s) = 's' :: esc s.data := rfl
  rw [he]
  simp [decValue, unesc_esc, strMk_data]

theorem encValue_no_nl_str (s : String) :
    ∀ c ∈ encValue (Value.vstr s), ¬ c = '\n' := by
  intro c hc
  have he : encValue (Value.vstr s) = 's' :: esc s.data := rfl
  rw [he] at hc
  rcases List.mem_cons.mp hc with rfl | hc
  · decide
  · exact (esc_no_sep s.data c hc).1

theorem encValue_no_nl_list (items : List Value) :
    ∀ c ∈ encValue (Value.vlist items), ¬ c = '\n' := by
  intro c hc
  have he : encValue (Value.vlist items) = 'l' :: (items.map (fun x =>
      match x with
      | Value.vstr s => esc s.data ++ ['\t']
      | _ => ['?', '\t'])).flatten := rfl
  rw [he] at hc
  rcases List.mem_cons.mp hc with rfl | hc
  · decide
  · rw [List.mem_flatten] at hc
    obtain ⟨l, hl, hcl⟩ := hc
    rw [List.mem_map] at hl
    obtain ⟨x, hx, rfl⟩ := hl
    cases x with
    | vstr s =>
        rcases List.mem_append.mp hcl with h2 | h2
        · exact (esc_no_sep s.data c h2).1
        · simp at h2
          subst h2
          decide
    | vnull => simp at hcl; rcases hcl with rfl | rfl <;> decide
    | vint n => simp at hcl; rcases hcl with rfl | rfl <;> decide
    | vbool b => simp at hcl; rcases hcl with rfl | rfl <;> decide
    | vlist xs => simp at hcl; rcases hcl with rfl | rfl <;> decide
    | vdict es => simp at hcl; rcases hcl with rfl | rfl <;> decide

theorem encValue_no_nl_dict (entries : List (String × Value))
    (hk : ∀ p ∈ entries, ∀ c ∈ p.1.data, ¬ c = '\n') :
    ∀ c ∈ encValue (Value.vdict entries), ¬ c = '\n' := by
  intro c hc
  have he : encValue (Value.vdict entries) = 'd' :: (entries.map (fun p =>
      match p.2 with
      | Value.vstr s => p.1.data ++ ':' :: esc s.data ++ ['\t']
      | _ => ['?', '\t'])).flatten := rfl
  rw [he] at hc
  rcases List.mem_cons.mp hc with rfl | hc
  · decide
  · rw [List.mem_flatten] at hc
    obtain ⟨l, hl, hcl⟩ := hc
    rw [List.mem_map] at hl
    obtain ⟨q, hq, rfl⟩ := hl
    obtain ⟨k1, v1⟩ := q
    cases v1 with
    | vstr s =>
        rcases List.mem_append.mp hcl with h2 | h2
        · rcases List.mem_append.mp h2 with h3 | h3
          · exact hk (k1, Value.vstr s) hq c h3
          · rcases List.mem_cons.mp h3 with rfl | h4
            · decide
            · exact (esc_no_sep s.data c h4).1
        · simp at h2
          subst h2
          decide
    | vnull => simp at hcl; rcases hcl with rfl | rfl <;> decide
    | vint n => simp at hcl; rcases hcl with rfl | rfl <;> decide
    | vbool b => simp at hcl; rcases hcl with rfl | rfl <;> decide
    | vlist xs => simp at hcl; rcases hcl with rfl | rfl <;> decide
    | vdict es => simp at hcl; rcases hcl with rfl | rfl <;> decide

theorem mapM_dict_chunks (entries : List (String × Value))
    (hv : ∀ p ∈ entries, ∃ s, p.2 = Value.vstr s)
    (hk : ∀ p ∈ entries, ∀ c ∈ p.1.data, notColon c = true) :
    (entries.map (fun p => p.1.data ++ ':' :: esc (unVStr p.2).data)).mapM
      (fun (chunk : List Char) =>
        let k := chunk.takeWhile notColon
        match chunk.dropWhile notColon with
        | ':' :: vs => (unesc vs).map (fun cs => (String.mk k, Value.vstr (String.mk cs)))
        | _ => none) = some entries := by
  induction entries with
  | nil => rfl
  | cons p rest ih =>
      obtain ⟨k1, v1⟩ := p
      obtain ⟨s, hs⟩ := hv (k1, v1) (by simp)
      have hs2 : v1 = Value.vstr s := hs
      subst hs2
      obtain ⟨hT, hD⟩ := takeWhile_append_strict notColon k1.data ':' (esc s.data)
        (hk (k1, Value.vstr s) (by simp)) (by decide)
      have e1 : ((k1, Value.vstr s) :: rest).map
            (fun p => p.1.data ++ ':' :: esc (unVStr p.2).data)
          = (k1.data ++ ':' :: esc s.data) ::
            rest.map (fun p => p.1.data ++ ':' :: esc (unVStr p.2).data) := rfl
      rw [e1, List.mapM_cons]
      simp only [hT, hD, unesc_esc, Option.map_some', strMk_data, Option.some_bind]
      rw [ih (fun q hq => hv q (by simp [hq])) (fun q hq => hk q (by simp [hq]))]
      rfl

theorem decValue_enc_list (items : List Value)
    (h : ∀ x ∈ items, ∃ s, x = Value.vstr s) :
    decValue (encValue (Value.vlist items)) = some (Value.vlist items) := by
  have hmap : items.map (fun x =>
        match x with
        | Value.vstr s => esc s.data ++ ['\t']
        | _ => ['?', '\t'])
      = ((items.map (fun x => (unVStr x).data)).map esc).map (fun ch => ch ++ ['\t']) := by
    rw [List.map_map, List.map_map]
    refine List.map_congr_left ?_
    intro x hx
    obtain ⟨s, hs⟩ := h x hx
    subst hs
    rfl
  have hsep : ∀ ch ∈ (items.map (fun x => (unVStr x).data)).map esc,
      ∀ c ∈ ch, ¬ c = '\t' := by
    intro ch hch c hc
    rw [List.mem_map] at hch
    obtain ⟨ds, hds, rfl⟩ := hch
    exact (esc_no_sep ds c hc).2
  have he : decValue (encValue (Value.vlist items))
      = (splitSeq '\t' ((items.map (fun x =>
          match x with
          | Value.vstr s => esc s.data ++ ['\t']
          | _ => ['?', '\t'])).flatten)).bind (fun chunks =>
        (chunks.mapM unesc).map (fun strs =>
          Value.vlist (strs.map (fun cs => Value.vstr (String.mk cs))))) := rfl
  have hid : (items.map (fun x => (unVStr x).data)).map
      (fun cs => Value.vstr (String.mk cs)) = items := by
    rw [List.map_map]
    have hpt : ∀ x ∈ items,
        ((fun cs => Value.vstr (String.mk cs)) ∘ (fun x => (unVStr x).data)) x = x := by
      intro x hx
      obtain ⟨s, hs⟩ := h x hx
      subst hs
      rfl
    rw [List.map_congr_left hpt]
    exact List.map_id' items
  rw [he, hmap, splitSeq_encode '\t' _ hsep, Option.some_bind, mapM_unesc_esc,
    Option.map_some', hid]

theorem decValue_enc_dict (entries : List (String × Value))
    (hv : ∀ p ∈ entries, ∃ s, p.2 = Value.vstr s)
    (hk : ∀ p ∈ entries, ∀ c ∈ p.1.data, ¬ c = ':' ∧ ¬ c = '\t') :
    decValue (encValue (Value.vdict entries)) = some (Value.vdict entries) := by
  have hmap : entries.map (fun p =>
        match p.2 with
        | Value.vstr s => p.1.data ++ ':' :: esc s.data ++ ['\t']
        | _ => ['?', '\t'])
      = (entries.map (fun p => p.1.data ++ ':' :: esc (unVStr p.2).data)).map
          (fun ch => ch ++ ['\t']) := by
    rw [List.map_map]
    refine List.map_congr_left ?_
    intro p hp
    obtain ⟨s, hs⟩ := hv p hp
    obtain ⟨k1, v1⟩ := p
    have hs2 : v1 = Value.vstr s := hs
    subst hs2
    simp [Function.comp, unVStr, List.append_assoc]
  have hsep : ∀ ch ∈ entries.map (fun p => p.1.data ++ ':' :: esc (unVStr p.2).data),
      ∀ c ∈ ch, ¬ c = '\t' := by
    intro ch hch c hc
    rw [List.mem_map] at hch
    obtain ⟨p, hp, rfl⟩ := hch
    rcases List.mem_append.mp hc with h2 | h2
    · exact (hk p hp c h2).2
    · rcases List.mem_cons.mp h2 with rfl | h3
      · decide
      · exact (esc_no_sep _ c h3).2
  have hk2 : ∀ p ∈ entries, ∀ c ∈ p.1.data, notColon c = true := by
    intro p hp c hc
    have := (hk p hp c hc).1
    simp [notColon, this]
  have he : decValue (encValue (Value.vdict entries))
      = (splitSeq '\t' ((entries.map (fun p =>
          match p.2 with
          | Value.vstr s => p.1.data ++ ':' :: esc s.data ++ ['\t']
          | _ => ['?', '\t'])).flatten)).bind (fun chunks =>
        (chunks.mapM (fun (chunk : List Char) =>
          let k := chunk.takeWhile notColon
          match chunk.dropWhile notColon with
          | ':' :: vs =>
              (unesc vs).map (fun cs => (String.mk k, Value.vstr (String.mk cs)))
          | _ => none)).map Value.vdict) := rfl
  rw [he, hmap, splitSeq_encode '\t' _ hsep, Option.some_bind,
    mapM_dict_chunks entries hv hk2]
  rfl

theorem mapM_lines (m : List (String × Value))
    (hkey : ∀ p ∈ m, ∀ c ∈ p.1.data, notColon c = true)
    (hval : ∀ p ∈ m, decValue (encValue p.2) = some p.2) :
    (m.map (fun p => p.1.data ++ ':' :: encValue p.2)).mapM (fun (line : List Char) =>
      let k := line.takeWhile notColon
      match line.dropWhile notColon with
      | ':' :: pv => (decValue pv).map (fun v => (String.mk k, v))
      | _ => none) = some m := by
  induction m with
  | nil => rfl
  | cons p rest ih =>
      obtain ⟨k1, v1⟩ := p
      obtain ⟨hT, hD⟩ := takeWhile_append_strict notColon k1.data ':' (encValue v1)
        (hkey (k1, v1) (by simp)) (by decide)
      have hv1 : decValue (encValue v1) = some v1 := hval (k1, v1) (by simp)
      have e1 : ((k1, v1) :: rest).map (fun p => p.1.data ++ ':' :: encValue p.2)
          = (k1.data ++ ':' :: encValue v1) ::
            rest.map (fun p => p.1.data ++ ':' :: encValue p.2) := rfl
      rw [e1, List.mapM_cons]
      simp only [hT, hD, hv1, Option.map_some', strMk_data, Option.some_bind]
      rw [ih (fun q hq => hkey q (by simp [hq])) (fun q hq => hval q (by simp [hq]))]
      rfl

theorem yaml_load_dump (m : List (String × Value))
    (hkey : ∀ p ∈ m, ∀ c ∈ p.1.data, ¬ c = ':' ∧ ¬ c = '\n')
    (hval : ∀ p ∈ m, (∀ c ∈ encValue p.2, ¬ c = '\n') ∧
      decValue (encValue p.2) = some p.2) :
    yaml_load (yaml_dump m) = some m := by
  have hshape : m.map (fun p => p.1.data ++ ':' :: encValue p.2 ++ ['\n'])
      = (m.map (fun p => p.1.data ++ ':' :: encValue p.2)).map
          (fun ch => ch ++ ['\n']) := by
    rw [List.map_map]
    rfl
  have hsep : ∀ ch ∈ m.map (fun p => p.1.data ++ ':' :: encValue p.2),
      ∀ c ∈ ch, ¬ c = '\n' := by
    intro ch hch c hc
    rw [List.mem_map] at hch
    obtain ⟨p, hp, rfl⟩ := hch
    rcases List.mem_append.mp hc with h2 | h2
    · exact (hkey p hp c h2).2
    · rcases List.mem_cons.mp h2 with rfl | h3
      · decide
      · exact (hval p hp).1 c h3
  have hkey2 : ∀ p ∈ m, ∀ c ∈ p.1.data, notColon c = true := by
    intro p hp c hc
    have := (hkey p hp c hc).1
    simp [notColon, this]
  have he : yaml_load (yaml_dump m)
      = (splitSeq '\n'
          ((m.map (fun p => p.1.data ++ ':' :: encValue p.2 ++ ['\n'])).flatten)).bind
          (fun lines => lines.mapM (fun (line : List Char) =>
            let k := line.takeWhile notColon
            match line.dropWhile notColon with
            | ':' :: pv => (decValue pv).map (fun v => (String.mk k, v))
            | _ => none)) := rfl
  rw [he, hshape, splitSeq_encode '\n' _ hsep, Option.some_bind,
    mapM_lines m hkey2 (fun p hp => (hval p hp).2)]

theorem lookup_some_mem {d : Record} {f : String} {v : Value}
    (h : lookup d f = some v) : (f, v) ∈ d := by
  induction d with
  | nil => cases h
  | cons q rest ih =>
      obtain ⟨k, w⟩ := q
      rw [lookup] at h
      by_cases hk : k = f
      · rw [if_pos hk] at h
        cases h
        subst hk
        exact List.mem_cons_self _ _
      · rw [if_neg hk] at h
        exact List.mem_cons_of_mem _ (ih h)

theorem mem_get_yaml_mapping {z : Record} {restrict : List String}
    {p : String × Value} (hp : p ∈ get_yaml_mapping z restrict) :
    p.1 ∈ ZettelFieldsOrdered ∧ emit_entry z restrict p.1 = some p := by
  unfold get_yaml_mapping at hp
  rw [List.mem_filterMap] at hp
  obtain ⟨k, hk, he⟩ := hp
  have hk1 : p.1 = k := emit_entry_key he
  rw [hk1]
  exact ⟨hk, he⟩

theorem emit_entry_document (z : Record) (restrict : List String) :
    emit_entry z restrict "document" = none := by
  unfold emit_entry
  cases lookup z "document" with
  | none => rfl
  | some v =>
      rw [Option.some_bind]
      by_cases hr : "document" ∈ restrict
      · rw [if_pos hr, if_neg (by decide), if_pos rfl]
      · rw [if_neg hr]

theorem emit_entry_some_lookup {z : Record} {restrict : List String} {k : String}
    {v : Value} (h : emit_entry z restrict k = some (k, v)) :
    lookup z k = some v := by
  unfold emit_entry at h
  cases hl : lookup z k with
  | none => rw [hl, Option.none_bind] at h; cases h
  | some w =>
      rw [hl, Option.some_bind] at h
      by_cases hr : k ∈ restrict
      · rw [if_pos hr] at h
        by_cases hs : k ∈ ZettelStringFields
        · rw [if_pos hs] at h
          have hv : w = v := (Prod.ext_iff.mp (Option.some.inj h)).2
          rw [hv]
        · rw [if_neg hs] at h
          by_cases hd : k = "document"
          · rw [if_pos hd] at h; cases h
          · rw [if_neg hd, Option.map_eq_some'] at h
            obtain ⟨v1, hv1, he⟩ := h
            have hv : v1 = v := (Prod.ext_iff.mp he).2
            subst hv
            cases w with
            | vlist items =>
                have hvv : Value.vlist items = v1 := by simpa [copyValue] using hv1
                rw [hvv]
            | vdict es =>
                have hvv : Value.vdict es = v1 := by simpa [copyValue] using hv1
                rw [hvv]
            | vnull => simp [copyValue] at hv1
            | vstr s => simp [copyValue] at hv1
            | vint n => simp [copyValue] at hv1
            | vbool b => simp [copyValue] at hv1
      · rw [if_neg hr] at h
        cases h

theorem emit_entry_copy_shape {z : Record} {restrict : List String} {k : String}
    {v : Value} (h : emit_entry z restrict k = some (k, v))
    (hs : ¬ k ∈ ZettelStringFields) :
    (∃ items, v = Value.vlist items) ∨ (∃ es, v = Value.vdict es) := by
  unfold emit_entry at h
  cases hl : lookup z k with
  | none => rw [hl, Option.none_bind] at h; cases h
  | some w =>
      rw [hl, Option.some_bind] at h
      by_cases hr : k ∈ restrict
      · rw [if_pos hr, if_neg hs] at h
        by_cases hd : k = "document"
        · rw [if_pos hd] at h; cases h
        · rw [if_neg hd, Option.map_eq_some'] at h
          obtain ⟨v1, hv1, he⟩ := h
          have hv : v1 = v := (Prod.ext_iff.mp he).2
          subst hv
          cases w with
          | vlist items => exact Or.inl ⟨items, by simpa [copyValue] using hv1.symm⟩
          | vdict es => exact Or.inr ⟨es, by simpa [copyValue] using hv1.symm⟩
          | vnull => simp [copyValue] at hv1
          | vstr s => simp [copyValue] at hv1
          | vint n => simp [copyValue] at hv1
          | vbool b => simp [copyValue] at hv1
      · rw [if_neg hr] at h
        cases h

theorem lookup_filterMap_not_mem (z : Record) (restrict : List String)
    (L : List String) {f : String} (hf : ¬ f ∈ L) :
    lookup (L.filterMap (emit_entry z restrict)) f = none := by
  induction L with
  | nil => rfl
  | cons k rest ih =>
      have hf1 : ¬ f = k := fun hh => hf (by simp [hh])
      have hf2 : ¬ f ∈ rest := fun hh => hf (by simp [hh])
      rw [List.filterMap_cons]
      cases he : emit_entry z restrict k with
      | none => exact ih hf2
      | some e =>
          obtain ⟨k1, v1⟩ := e
          have hk1 : k1 = k := emit_entry_key he
          rw [lookup, if_neg (fun hc => hf1 (hc.symm.trans hk1))]
          exact ih hf2

theorem lookup_filterMap_nodup (z : Record) (restrict : List String)
    {L : List String} (hnd : L.Nodup) {f : String} (hf : f ∈ L) :
    lookup (L.filterMap (emit_entry z restrict)) f
      = (emit_entry z restrict f).map Prod.snd := by
  induction L with
  | nil => cases hf
  | cons k rest ih =>
      rw [List.nodup_cons] at hnd
      rw [List.filterMap_cons]
      rcases List.mem_cons.mp hf with hfk | hmem
      · subst hfk
        cases he : emit_entry z restrict f with
        | none =>
            rw [lookup_filterMap_not_mem z restrict rest hnd.1]
            rfl
        | some e =>
            obtain ⟨k1, v1⟩ := e
            have hk1 : k1 = f := emit_entry_key he
            rw [lookup, if_pos hk1]
            rfl
      · have hfk : ¬ k = f := fun hh => hnd.1 (hh ▸ hmem)
        cases he : emit_entry z restrict k with
        | none => exact ih hnd.2 hmem
        | some e =>
            obtain ⟨k1, v1⟩ := e
            have hk1 : k1 = k := emit_entry_key he
            rw [lookup, if_neg (fun hc => hfk (hk1.symm.trans hc))]
            exact ih hnd.2 hmem

theorem ZFO_nodup : ZettelFieldsOrdered.Nodup := by decide

theorem ZFO_cases : ∀ k ∈ ZettelFieldsOrdered, k ∈ ZettelStringFields ∨ k = "tags" ∨
    k = "mentions" ∨ k = "cite" ∨ k = "dates" ∨ k = "filename" ∨ k = "document" := by
  decide

theorem ZFO_nonstr : ∀ k ∈ ZettelFieldsOrdered, ¬ k ∈ ZettelStringFields →
    ¬ k = "document" → ¬ k = "filename" →
    k = "tags" ∨ k = "mentions" ∨ k = "cite" ∨ k = "dates" := by
  decide

theorem schema_keys_ok : ∀ k ∈ ZettelFieldsOrdered, ∀ c ∈ k.data,
    ¬ c = ':' ∧ ¬ c = '\n' := by
  decide

theorem sub_keys_ok : ∀ k ∈ CitationFields ++ DatesFields, ∀ c ∈ k.data,
    ¬ c = ':' ∧ ¬ c = '\t' ∧ ¬ c = '\n' := by
  decide

theorem lookup_mapping_none_or (z : Record) (restrict : List String) (f : String) :
    lookup (get_yaml_mapping z restrict) f = none ∨
      lookup (get_yaml_mapping z restrict) f = lookup z f := by
  unfold get_yaml_mapping
  by_cases hfo : f ∈ ZettelFieldsOrdered
  · rw [lookup_filterMap_nodup z restrict ZFO_nodup hfo]
    cases he : emit_entry z restrict f with
    | none => exact Or.inl rfl
    | some e =>
        obtain ⟨k1, v1⟩ := e
        have hk1 : k1 = f := emit_entry_key he
        subst hk1
        exact Or.inr (emit_entry_some_lookup he).symm
  · rw [lookup_filterMap_not_mem z restrict _ hfo]
    exact Or.inl rfl

theorem parse_zettel_sub {z m : Record} (h : parse_zettel z = .ok ())
    (hkeys : ∀ p ∈ m, p.1 ∈ ZettelFieldsOrdered)
    (hsub : ∀ f : String, lookup m f = none ∨ lookup m f = lookup z f) :
    parse_zettel m = .ok () := by
  rw [parse_zettel_ok_iff] at h
  obtain ⟨hck, h1, h2, h3, h4, h5, h6, h7, h8, h9, h10, h11, h12, h13, h14⟩ := h
  rw [parse_zettel_ok_iff]
  refine ⟨(check_field_names_ok_iff m ZettelFieldsOrdered "Zettel").mpr hkeys,
    ?_, ?_, ?_, ?_, ?_, ?_, ?_, ?_, ?_, ?_, ?_, ?_, ?_, ?_⟩
  · unfold parse_string_field
    rcases hsub "title" with hh | hh
    · rw [hh]; rfl
    · rw [hh]; exact h1
  · unfold parse_string_field
    rcases hsub "bibkey" with hh | hh
    · rw [hh]; rfl
    · rw [hh]; exact h2
  · unfold parse_string_field
    rcases hsub "bibtex" with hh | hh
    · rw [hh]; rfl
    · rw [hh]; exact h3
  · unfold parse_string_field
    rcases hsub "ris" with hh | hh
    · rw [hh]; rfl
    · rw [hh]; exact h4
  · unfold parse_string_field
    rcases hsub "inline" with hh | hh
    · rw [hh]; rfl
    · rw [hh]; exact h5
  · unfold parse_string_field
    rcases hsub "url" with hh | hh
    · rw [hh]; rfl
    · rw [hh]; exact h6
  · unfold parse_string_field
    rcases hsub "summary" with hh | hh
    · rw [hh]; rfl
    · rw [hh]; exact h7
  · unfold parse_string_field
    rcases hsub "comment" with hh | hh
    · rw [hh]; rfl
    · rw [hh]; exact h8
  · unfold parse_string_field
    rcases hsub "note" with hh | hh
    · rw [hh]; rfl
    · rw [hh]; exact h9
  · unfold parse_string_field
    rcases hsub "document" with hh | hh
    · rw [hh]; rfl
    · rw [hh]; exact h10
  · unfold parse_list_of_string_field
    rcases hsub "tags" with hh | hh
    · rw [hh]; rfl
    · rw [hh]; exact h11
  · unfold parse_list_of_string_field
    rcases hsub "mentions" with hh | hh
    · rw [hh]; rfl
    · rw [hh]; exact h12
  · unfold parse_citation
    rcases hsub "cite" with hh | hh
    · rw [hh]; rfl
    · rw [hh]; exact h13
  · unfold parse_dates
    rcases hsub "dates" with hh | hh
    · rw [hh]; rfl
    · rw [hh]; exact h14

theorem mapping_value_enc {z : Record} {restrict : List String}
    (h : parse_zettel z = .ok ())
    (hfn : isStrOrAbsent (lookup z "filename") = true)
    (hnd : ∀ p ∈ z, subkeysNodup p.2 = true) :
    ∀ p ∈ get_yaml_mapping z restrict,
      (∀ c ∈ encValue p.2, ¬ c = '\n') ∧ decValue (encValue p.2) = some p.2 := by
  intro p hp
  obtain ⟨hpo, he⟩ := mem_get_yaml_mapping hp
  have he2 : emit_entry z restrict p.1 = some (p.1, p.2) := he
  have hlz : lookup z p.1 = some p.2 := emit_entry_some_lookup he2
  rcases ZFO_cases p.1 hpo with hs | hcase | hcase | hcase | hcase | hcase | hcase
  · rcases valid_string_field h (Or.inl hs) with h0 | ⟨s, h0⟩
    · rw [hlz] at h0; cases h0
    · rw [hlz] at h0
      have hv : p.2 = Value.vstr s := Option.some.inj h0
      rw [hv]
      exact ⟨encValue_no_nl_str s, decValue_enc_str s⟩
  · rw [hcase] at hlz
    rcases valid_list_field h (Or.inl rfl) with h0 | ⟨items, h0, hstr⟩
    · rw [hlz] at h0; cases h0
    · rw [hlz] at h0
      have hv : p.2 = Value.vlist items := Option.some.inj h0
      rw [hv]
      exact ⟨encValue_no_nl_list items, decValue_enc_list items hstr⟩
  · rw [hcase] at hlz
    rcases valid_list_field h (Or.inr rfl) with h0 | ⟨items, h0, hstr⟩
    · rw [hlz] at h0; cases h0
    · rw [hlz] at h0
      have hv : p.2 = Value.vlist items := Option.some.inj h0
      rw [hv]
      exact ⟨encValue_no_nl_list items, decValue_enc_list items hstr⟩
  · rw [hcase] at hlz
    have hshape := emit_entry_copy_shape he2 (by rw [hcase]; decide)
    rcases valid_structured_field h (Or.inl rfl) with h0 | h0 | ⟨entries, h0, hkeys2, hstr2⟩
    · rw [hlz] at h0; cases h0
    · rw [hlz] at h0
      have hv : p.2 = Value.vnull := Option.some.inj h0
      rcases hshape with ⟨items, hsh⟩ | ⟨es, hsh⟩ <;> rw [hv] at hsh <;> cases hsh
    · rw [hlz] at h0
      have hv : p.2 = Value.vdict entries := Option.some.inj h0
      have hndk : (entries.map Prod.fst).Nodup := by
        have h5 := hnd ("cite", p.2) (lookup_some_mem hlz)
        rw [hv] at h5
        exact of_decide_eq_true (by simpa [subkeysNodup] using h5)
      have hvals := hstr2 hndk
      have hkeyok : ∀ q ∈ entries, ∀ c ∈ q.1.data, ¬ c = ':' ∧ ¬ c = '\t' := by
        intro q hq c hc
        have h6 := sub_keys_ok q.1 (hkeys2 q hq) c hc
        exact ⟨h6.1, h6.2.1⟩
      have hkeynl : ∀ q ∈ entries, ∀ c ∈ q.1.data, ¬ c = '\n' := by
        intro q hq c hc
        exact (sub_keys_ok q.1 (hkeys2 q hq) c hc).2.2
      rw [hv]
      exact ⟨encValue_no_nl_dict entries hkeynl, decValue_enc_dict entries hvals hkeyok⟩
  · rw [hcase] at hlz
    have hshape := emit_entry_copy_shape he2 (by rw [hcase]; decide)
    rcases valid_structured_field h (Or.inr rfl) with h0 | h0 | ⟨entries, h0, hkeys2, hstr2⟩
    · rw [hlz] at h0; cases h0
    · rw [hlz] at h0
      have hv : p.2 = Value.vnull := Option.some.inj h0
      rcases hshape with ⟨items, hsh⟩ | ⟨es, hsh⟩ <;> rw [hv] at hsh <;> cases hsh
    · rw [hlz] at h0
      have hv : p.2 = Value.vdict entries := Option.some.inj h0
      have hndk : (entries.map Prod.fst).Nodup := by
        have h5 := hnd ("dates", p.2) (lookup_some_mem hlz)
        rw [hv] at h5
        exact of_decide_eq_true (by simpa [subkeysNodup] using h5)
      have hvals := hstr2 hndk
      have hkeyok : ∀ q ∈ entries, ∀ c ∈ q.1.data, ¬ c = ':' ∧ ¬ c = '\t' := by
        intro q hq c hc
        have h6 := sub_keys_ok q.1 (hkeys2 q hq) c hc
        exact ⟨h6.1, h6.2.1⟩
      have hkeynl : ∀ q ∈ entries, ∀ c ∈ q.1.data, ¬ c = '\n' := by
        intro q hq c hc
        exact (sub_keys_ok q.1 (hkeys2 q hq) c hc).2.2
      rw [hv]
      exact ⟨encValue_no_nl_dict entries hkeynl, decValue_enc_dict entries hvals hkeyok⟩
  · rw [hcase] at hlz
    rw [hlz] at hfn
    have hshape := emit_entry_copy_shape he2 (by rw [hcase]; decide)
    cases hp2 : p.2 with
    | vstr s =>
        rcases hshape with ⟨items, hsh⟩ | ⟨es, hsh⟩ <;> rw [hp2] at hsh <;> cases hsh
    | vnull => rw [hp2] at hfn; simp [isStrOrAbsent] at hfn
    | vint n => rw [hp2] at hfn; simp [isStrOrAbsent] at hfn
    | vbool b => rw [hp2] at hfn; simp [isStrOrAbsent] at hfn
    | vlist items2 => rw [hp2] at hfn; simp [isStrOrAbsent] at hfn
    | vdict es2 => rw [hp2] at hfn; simp [isStrOrAbsent] at hfn
  · rw [hcase] at he2
    rw [emit_entry_document] at he2
    cases he2

/-- C2 (amended) — Round-trip as implemented, with the external PyYAML codec
modelled from the spec as an injective text encoding with exact decoder: for
every validated record whose `filename`, if present, holds a string and whose
structured fields have pairwise-distinct sub-keys, and every field subset,
`get_yaml` succeeds and decoding its text recovers exactly the emitted
mapping (the canonical-order restriction of the record to the subset); that
mapping revalidates successfully and agrees with the original record on every
requested field except `document`, `filename`, and a field whose original
value is null (`document` and a string-valued `filename` are never emitted,
so they are lost by the round trip — the spec's unconditional claim fails
there). -/
theorem C2_roundtrip_amended (z : Record) (restrict : List String)
    (h : parse_zettel z = .ok ())
    (hfn : isStrOrAbsent (lookup z "filename") = true)
    (hnd : ∀ p ∈ z, subkeysNodup p.2 = true) :
    ∃ s, Zettel.get_yaml z restrict = .ok s ∧
      yaml_load s = some (get_yaml_mapping z restrict) ∧
      parse_zettel (get_yaml_mapping z restrict) = .ok () ∧
      ∀ f ∈ restrict, ¬ f = "document" → ¬ f = "filename" →
        ¬ lookup z f = some Value.vnull →
        lookup (get_yaml_mapping z restrict) f = lookup z f := by
  have hkeys : ∀ p ∈ get_yaml_mapping z restrict, p.1 ∈ ZettelFieldsOrdered :=
    fun p hp => (mem_get_yaml_mapping hp).1
  have hvalid : parse_zettel (get_yaml_mapping z restrict) = .ok () :=
    parse_zettel_sub h hkeys (lookup_mapping_none_or z restrict)
  have hvals : ∀ p ∈ get_yaml_mapping z restrict,
      (∀ c ∈ encValue p.2, ¬ c = '\n') ∧ decValue (encValue p.2) = some p.2 :=
    mapping_value_enc h hfn hnd
  have hagree : ∀ f ∈ restrict, ¬ f = "document" → ¬ f = "filename" →
      ¬ lookup z f = some Value.vnull →
      lookup (get_yaml_mapping z restrict) f = lookup z f := by
    intro f hf hdoc hfn2 hnul
    by_cases hfo : f ∈ ZettelFieldsOrdered
    · rw [get_yaml_mapping, lookup_filterMap_nodup z restrict ZFO_nodup hfo]
      cases he : emit_entry z restrict f with
      | some e =>
          obtain ⟨k1, v1⟩ := e
          have hk1 : k1 = f := emit_entry_key he
          subst hk1
          exact (emit_entry_some_lookup he).symm
      | none =>
          cases hl : lookup z f with
          | none => rfl
          | some v =>
              exfalso
              unfold emit_entry at he
              rw [hl, Option.some_bind, if_pos hf] at he
              by_cases hs : f ∈ ZettelStringFields
              · rw [if_pos hs] at he
                cases he
              · rw [if_neg hs, if_neg hdoc, Option.map_eq_none'] at he
                rcases ZFO_nonstr f hfo hs hdoc hfn2 with rfl | rfl | rfl | rfl
                · rcases valid_list_field h (Or.inl rfl) with h0 | ⟨items, h0, h9⟩
                  · rw [hl] at h0; cases h0
                  · rw [hl] at h0
                    have hv := Option.some.inj h0
                    subst hv
                    simp [copyValue] at he
                · rcases valid_list_field h (Or.inr rfl) with h0 | ⟨items, h0, h9⟩
                  · rw [hl] at h0; cases h0
                  · rw [hl] at h0
                    have hv := Option.some.inj h0
                    subst hv
                    simp [copyValue] at he
                · rcases valid_structured_field h (Or.inl rfl) with
                    h0 | h0 | ⟨entries, h0, h8, h9⟩
                  · rw [hl] at h0; cases h0
                  · exact hnul h0
                  · rw [hl] at h0
                    have hv := Option.some.inj h0
                    subst hv
                    simp [copyValue] at he
                · rcases valid_structured_field h (Or.inr rfl) with
                    h0 | h0 | ⟨entries, h0, h8, h9⟩
                  · rw [hl] at h0; cases h0
                  · exact hnul h0
                  · rw [hl] at h0
                    have hv := Option.some.inj h0
                    subst hv
                    simp [copyValue] at he
    · rw [get_yaml_mapping, lookup_filterMap_not_mem z restrict _ hfo]
      cases hl : lookup z f with
      | none => rfl
      | some v => exact absurd (valid_keys h (f, v) (lookup_some_mem hl)) hfo
  unfold Zettel.get_yaml
  rw [h]
  by_cases hm : (get_yaml_mapping z restrict).length > 0
  · refine ⟨yaml_dump (get_yaml_mapping z restrict), ?_, ?_, hvalid, hagree⟩
    · show (if (get_yaml_mapping z restrict).length > 0 then
          Except.ok (yaml_dump (get_yaml_mapping z restrict))
        else Except.ok "") = _
      rw [if_pos hm]
    · apply yaml_load_dump
      · intro p hp c hc
        exact schema_keys_ok p.1 (hkeys p hp) c hc
      · exact hvals
  · have hempty : get_yaml_mapping z restrict = [] := by
      cases hq : get_yaml_mapping z restrict with
      | nil => rfl
      | cons a b => rw [hq] at hm; simp at hm
    refine ⟨"", ?_, ?_, hvalid, hagree⟩
    · show (if (get_yaml_mapping z restrict).length > 0 then
          Except.ok (yaml_dump (get_yaml_mapping z restrict))
        else Except.ok "") = _
      rw [if_neg hm]
    · rw [hempty]
      rfl

/-- Witness for C2 (amended) at the validated record
`{title: "t", tags: ["a","b"], cite: {bibkey: "k"}}` with no restriction. -/
theorem C2_roundtrip_amended_witness :
    ∃ s, Zettel.get_yaml
        [("title", Value.vstr "t"),
         ("tags", Value.vlist [Value.vstr "a", Value.vstr "b"]),
         ("cite", Value.vdict [("bibkey", Value.vstr "k")])]
        ZettelFieldsOrdered = .ok s ∧
      yaml_load s = some (get_yaml_mapping
        [("title", Value.vstr "t"),
         ("tags", Value.vlist [Value.vstr "a", Value.vstr "b"]),
         ("cite", Value.vdict [("bibkey", Value.vstr "k")])] ZettelFieldsOrdered) ∧
      parse_zettel (get_yaml_mapping
        [("title", Value.vstr "t"),
         ("tags", Value.vlist [Value.vstr "a", Value.vstr "b"]),
         ("cite", Value.vdict [("bibkey", Value.vstr "k")])] ZettelFieldsOrdered)
        = .ok () ∧
      ∀ f ∈ ZettelFieldsOrdered, ¬ f = "document" → ¬ f = "filename" →
        ¬ lookup [("title", Value.vstr "t"),
            ("tags", Value.vlist [Value.vstr "a", Value.vstr "b"]),
            ("cite", Value.vdict [("bibkey", Value.vstr "k")])] f
          = some Value.vnull →
        lookup (get_yaml_mapping
            [("title", Value.vstr "t"),
             ("tags", Value.vlist [Value.vstr "a", Value.vstr "b"]),
             ("cite", Value.vdict [("bibkey", Value.vstr "k")])] ZettelFieldsOrdered) f
          = lookup [("title", Value.vstr "t"),
              ("tags", Value.vlist [Value.vstr "a", Value.vstr "b"]),
              ("cite", Value.vdict [("bibkey", Value.vstr "k")])] f :=
  C2_roundtrip_amended _ ZettelFieldsOrdered (by decide) (by decide) (by decide)

/-- Counterexample to C2 as stated: the record `{document: "x"}` is valid and
`document` is in the requested field subset, yet `produceYAML` emits nothing
(`document` is never included in the YAML body), so decoding the produced
text yields the empty record and the `document` value is not reconstructed. -/
theorem C2_counterexample :
    parse_zettel [("document", Value.vstr "x")] = .ok () ∧
    Zettel.get_yaml [("document", Value.vstr "x")] ["document"] = .ok "" ∧
    yaml_load "" = some [] ∧
    ¬ lookup ([] : Record) "document"
        = lookup [("document", Value.vstr "x")] "document" := by
  refine ⟨by decide, by decide, by decide, by decide⟩
